import Mathlib

/-!
Verification of the resource-locator / transfer core of the repository
(`src/gfs/anyuri.py`, `src/gfs/utils/uri.py`, `src/gfs/utils/gs.py`,
`src/gfs/store.py`, `src/gfs/temp.py`).

Strings are modelled as `List Char` (`Str`).  The Python standard-library
helpers the code relies on (`urllib.parse.urlparse`, `urlunparse`,
`urljoin`, `quote`, `unquote`, `posixpath.normpath`, `os.path.splitext`)
are embedded as executable Lean functions, faithful to CPython 3.11
semantics on the POSIX / ASCII domain the theorems quantify over
(UTF-8 multi-byte percent-decoding and the IPv6-bracket `ValueError`
of `urlsplit` are outside that domain; hypotheses of the general
theorems exclude such inputs explicitly).  `pathlib.Path.resolve()` is
modelled lexically (no symlinks), with the current working directory an
explicit `cwd` parameter.
-/

/-- Strings as character lists. -/
abbrev Str := List Char

/-- Conversion from Lean string literals. -/
def str (s : String) : Str := s.toList

/-- ASCII letter. -/
def isAsciiAlpha (c : Char) : Bool :=
  ('a' ≤ c ∧ c ≤ 'z') ∨ ('A' ≤ c ∧ c ≤ 'Z')

/-- ASCII digit. -/
def isAsciiDigit (c : Char) : Bool :=
  '0' ≤ c ∧ c ≤ '9'

/-- ASCII letter or digit. -/
def isAsciiAlnum (c : Char) : Bool :=
  isAsciiAlpha c || isAsciiDigit c

/-- Characters allowed in a URL scheme (`urllib.parse.scheme_chars`). -/
def isSchemeChar (c : Char) : Bool :=
  isAsciiAlnum c || c = '+' || c = '-' || c = '.'

/-- ASCII lower-casing of one character. -/
def lowerChar (c : Char) : Char :=
  if 'A' ≤ c ∧ c ≤ 'Z' then Char.ofNat (c.toNat + 32) else c

/-- ASCII lower-casing of a string. -/
def lowerStr (s : Str) : Str := s.map lowerChar

/-- Every character is ASCII. -/
def AllAscii (s : Str) : Prop := ∀ c ∈ s, c.toNat < 128

instance (s : Str) : Decidable (AllAscii s) := by
  unfold AllAscii; infer_instance

/-- Split a string at the first occurrence of `c`: the part before it and,
when `c` occurs, the part after it. -/
def splitOnFirst (c : Char) : Str → Str × Option Str
  | [] => ([], none)
  | a :: s =>
    if a = c then ([], some s)
    else
      let r := splitOnFirst c s
      (a :: r.1, r.2)

/-- Strip a literal front `pat` from `s`, returning the remainder. -/
def stripPre : Str → Str → Option Str
  | [], s => some s
  | _ :: _, [] => none
  | p :: ps, c :: cs => if p = c then stripPre ps cs else none

/-- Python's substring test `pat in s`. -/
def containsSub (pat : Str) : Str → Bool
  | [] => (stripPre pat []).isSome
  | c :: rest => (stripPre pat (c :: rest)).isSome || containsSub pat rest

/-- Fuel-driven worker for `replaceAll`; fuel bounds the number of steps,
each of which consumes at least one character. -/
def raGo (old new : Str) : Nat → Str → Str
  | _, [] => []
  | 0, s => s
  | f + 1, c :: rest =>
    match stripPre old (c :: rest) with
    | some leftover => new ++ raGo old new f leftover
    | none => c :: raGo old new f rest

/-- Python `s.replace(old, new)` for nonempty `old`: replace every
non-overlapping occurrence, scanning left to right.  (The repository only
calls it with the nonempty literal `https://storage.googleapis.com/`.) -/
def replaceAll (old new s : Str) : Str :=
  if old = [] then s else raGo old new s.length s

/-- Python `s.split('/')`. -/
def splitSlash : Str → List Str
  | [] => [[]]
  | c :: rest =>
    match splitSlash rest with
    | [] => []
    | h :: t => if c = '/' then [] :: h :: t else (c :: h) :: t

/-- Python `'/'.join(parts)`. -/
def joinSlash : List Str → Str
  | [] => []
  | [x] => x
  | x :: y :: ys => x ++ '/' :: joinSlash (y :: ys)

/-- Result of `urllib.parse.urlsplit`. -/
structure SplitResult where
  scheme : Str
  netloc : Str
  pathStr : Str
  query : Str
  fragment : Str
  deriving DecidableEq

/-- Result of `urllib.parse.urlparse`. -/
structure ParseResult where
  scheme : Str
  netloc : Str
  pathStr : Str
  params : Str
  query : Str
  fragment : Str
  deriving DecidableEq

/-- Characters `urlsplit` removes from the URL before parsing
(`_UNSAFE_URL_BYTES_TO_REMOVE`). -/
def notUnsafeUrlByte (c : Char) : Bool :=
  ¬ (c = '\t' ∨ c = '\r' ∨ c = '\n')

/-- The netloc of a URL extends to the first `/`, `?` or `#`
(`urllib.parse._splitnetloc`). -/
def notNetlocDelim (c : Char) : Bool :=
  ¬ (c = '/' ∨ c = '?' ∨ c = '#')

/-- Scheme extraction step of `urlsplit`: a nonempty run of scheme
characters starting with an ASCII letter, up to the first `:`. -/
def usScheme (default u : Str) : Str × Str :=
  match (splitOnFirst ':' u).2 with
  | some after =>
    match (splitOnFirst ':' u).1 with
    | [] => (default, u)
    | b :: bs =>
      if isAsciiAlpha b ∧ (b :: bs).all isSchemeChar
      then (lowerStr (b :: bs), after)
      else (default, u)
  | none => (default, u)

/-- Netloc extraction step of `urlsplit` (`_splitnetloc`). -/
def usNetloc (u : Str) : Str × Str :=
  if u.take 2 = str "//" then
    ((u.drop 2).takeWhile notNetlocDelim, (u.drop 2).dropWhile notNetlocDelim)
  else ([], u)

/-- Fragment split step of `urlsplit`. -/
def usFrag (u : Str) : Str × Str :=
  ((splitOnFirst '#' u).1, ((splitOnFirst '#' u).2).getD [])

/-- Query split step of `urlsplit`. -/
def usQuery (u : Str) : Str × Str :=
  ((splitOnFirst '?' u).1, ((splitOnFirst '?' u).2).getD [])

/-- `urllib.parse.urlsplit(url, scheme=default)` (CPython 3.11, with
`allow_fragments=True`; the IPv6-bracket `ValueError` is not modelled and
the theorems' hypotheses keep brackets out of the netloc). -/
def urlsplit (url0 default : Str) : SplitResult :=
  let u1 := url0.filter notUnsafeUrlByte
  let p1 := usScheme default u1
  let p2 := usNetloc p1.2
  let p3 := usFrag p2.2
  let p4 := usQuery p3.1
  ⟨p1.1, p2.1, p4.1, p4.2, p3.2⟩

/-- `urllib.parse.uses_params`. -/
def usesParams : List Str :=
  [str "", str "ftp", str "hdl", str "prospero", str "http", str "imap",
   str "https", str "shttp", str "rtsp", str "rtspu", str "sip", str "sips",
   str "mms", str "sftp", str "tel"]

/-- `urllib.parse.uses_relative`. -/
def usesRelative : List Str :=
  [str "", str "ftp", str "http", str "gopher", str "nntp", str "imap",
   str "wais", str "file", str "https", str "shttp", str "mms",
   str "prospero", str "rtsp", str "rtspu", str "sftp", str "svn",
   str "svn+ssh", str "ws", str "wss"]

/-- `urllib.parse.uses_netloc`. -/
def usesNetloc : List Str :=
  [str "", str "ftp", str "http", str "gopher", str "nntp", str "telnet",
   str "imap", str "wais", str "file", str "mms", str "https", str "shttp",
   str "snews", str "prospero", str "rtsp", str "rtspu", str "rsync",
   str "svn", str "svn+ssh", str "sftp", str "nfs", str "git",
   str "git+ssh", str "ws", str "wss", str "itms-services"]

/-- Index of the last occurrence of `c` in `s` (Python `s.rfind(c)`,
`none` for `-1`). -/
def lastIdx (c : Char) : Str → Option Nat
  | [] => none
  | a :: s =>
    match lastIdx c s with
    | some i => some (i + 1)
    | none => if a = c then some 0 else none

/-- `urllib.parse._splitparams`: split `;params` off the last path
segment.  Its caller guards with `';' in url`. -/
def splitparams (url : Str) : Str × Str :=
  match lastIdx '/' url with
  | none =>
    match splitOnFirst ';' url with
    | (l, some r) => (l, r)
    | (_, none) => (url, [])
  | some k =>
    let front := url.take k
    let back := url.drop k
    match splitOnFirst ';' back with
    | (l, some r) => (front ++ l, r)
    | (_, none) => (url, [])

/-- `urllib.parse.urlparse(url, scheme=default)`: `urlsplit` plus the
params split, which only applies when the scheme uses params. -/
def urlparse (url default : Str) : ParseResult :=
  let s := urlsplit url default
  if s.scheme ∈ usesParams ∧ ';' ∈ s.pathStr then
    let pp := splitparams s.pathStr
    ⟨s.scheme, s.netloc, pp.1, pp.2, s.query, s.fragment⟩
  else
    ⟨s.scheme, s.netloc, s.pathStr, [], s.query, s.fragment⟩

/-- `urllib.parse.urlunsplit`. -/
def urlunsplit (scheme netloc url query fragment : Str) : Str :=
  let url1 :=
    if netloc ≠ [] ∨ url.take 2 = str "//" then
      let u := if url ≠ [] ∧ url.take 1 ≠ str "/" then '/' :: url else url
      str "//" ++ netloc ++ u
    else url
  let url2 := if scheme ≠ [] then scheme ++ ':' :: url1 else url1
  let url3 := if query ≠ [] then url2 ++ '?' :: query else url2
  if fragment ≠ [] then url3 ++ '#' :: fragment else url3

/-- `urllib.parse.urlunparse`. -/
def urlunparse (scheme netloc url params query fragment : Str) : Str :=
  let u := if params ≠ [] then url ++ ';' :: params else url
  urlunsplit scheme netloc u query fragment

/-- One step of `urljoin`'s segment resolution loop. -/
def joinStep (acc : List Str) (seg : Str) : List Str :=
  if seg = str ".." then acc.dropLast
  else if seg = str "." then acc
  else acc ++ [seg]

/-- `urllib.parse.urljoin` (CPython 3.11). -/
def urljoin (base url : Str) : Str :=
  if base = [] then url
  else if url = [] then base
  else
    let b := urlparse base []
    let u := urlparse url b.scheme
    if u.scheme ≠ b.scheme ∨ u.scheme ∉ usesRelative then url
    else
      let netloc0 : Str := if u.scheme ∈ usesNetloc then
          (if u.netloc ≠ [] then u.netloc else b.netloc) else u.netloc
      if u.scheme ∈ usesNetloc ∧ u.netloc ≠ [] then
        urlunparse u.scheme u.netloc u.pathStr u.params u.query u.fragment
      else if u.pathStr = [] ∧ u.params = [] then
        let q := if u.query = [] then b.query else u.query
        urlunparse u.scheme netloc0 b.pathStr b.params q u.fragment
      else
        let baseParts0 := splitSlash b.pathStr
        let baseParts := if baseParts0.getLast? ≠ some [] then baseParts0.dropLast else baseParts0
        let segments : List Str :=
          if u.pathStr.take 1 = str "/" then splitSlash u.pathStr
          else
            match baseParts ++ splitSlash u.pathStr with
            | [] => []
            | s0 :: rest =>
              match rest.getLast? with
              | none => [s0]
              | some lst => s0 :: (rest.dropLast.filter (fun x => x ≠ [])) ++ [lst]
        let resolved := segments.foldl joinStep []
        let resolved2 :=
          if segments.getLast? = some (str "..") ∨ segments.getLast? = some (str ".")
          then resolved ++ [[]] else resolved
        let jp := joinSlash resolved2
        let jp2 := if jp = [] then str "/" else jp
        urlunparse u.scheme netloc0 jp2 u.params u.query u.fragment

/-- `gfs.utils.uri.normalize_url`: resolve `..`/`.` in the path of an
HTTP URL by joining the URL with its own path. -/
def normalize_url (v : Str) : Str :=
  let parsed := urlparse v []
  let resolved := urljoin v parsed.pathStr
  urlunparse parsed.scheme parsed.netloc (urlparse resolved []).pathStr
    parsed.params parsed.query parsed.fragment

-- sanity checks of the urllib model
example : urlparse (str "https://storage.googleapis.com/b/k") [] =
    ⟨str "https", str "storage.googleapis.com", str "/b/k", [], [], []⟩ := by decide
example : urlparse (str "gs://b/k?x=1") [] =
    ⟨str "gs", str "b", str "/k", [], str "x=1", []⟩ := by decide
example : urlparse (str "file://localhost/a/b?x=1#f") [] =
    ⟨str "file", str "localhost", str "/a/b", [], str "x=1", str "f"⟩ := by decide
example : urlparse (str "/a/b;p?q#f") [] =
    ⟨[], [], str "/a/b", str "p", str "q", str "f"⟩ := by decide
example : normalize_url (str "https://x/y/../z.PNG") = str "https://x/z.PNG" := by decide
example : normalize_url (str "https://x/y/z.PNG") = str "https://x/y/z.PNG" := by decide

/-- ASCII hexadecimal digit. -/
def isHexDig (c : Char) : Bool :=
  isAsciiDigit c || ('a' ≤ c ∧ c ≤ 'f') || ('A' ≤ c ∧ c ≤ 'F')

/-- Value of a hexadecimal digit. -/
def hexVal (c : Char) : Nat :=
  if isAsciiDigit c then c.toNat - 48
  else if 'a' ≤ c ∧ c ≤ 'f' then c.toNat - 87
  else c.toNat - 55

/-- `urllib.parse.unquote`: decode `%XX` escapes, leaving invalid escapes
as literal text.  Faithful for single-byte (ASCII) escapes, which is the
domain the theorems use; multi-byte UTF-8 sequences are out of scope. -/
def unquote : Str → Str
  | [] => []
  | '%' :: a :: b :: rest =>
    if isHexDig a ∧ isHexDig b
    then Char.ofNat (16 * hexVal a + hexVal b) :: unquote rest
    else '%' :: unquote (a :: b :: rest)
  | c :: rest => c :: unquote rest

/-- Characters `urllib.parse.quote` leaves unescaped with the default
`safe='/'` (the set `pathlib.PurePosixPath.as_uri` uses). -/
def isQuoteSafe (c : Char) : Bool :=
  isAsciiAlnum c || c = '_' || c = '.' || c = '-' || c = '~' || c = '/'

/-- Upper-case hexadecimal digit of a value below 16. -/
def hexDigitChar (n : Nat) : Char := (str "0123456789ABCDEF").getD n '0'

/-- Percent-encoding of one character (ASCII domain). -/
def quoteChar (c : Char) : Str :=
  if isQuoteSafe c then [c]
  else ['%', hexDigitChar (c.toNat / 16 % 16), hexDigitChar (c.toNat % 16)]

/-- `urllib.parse.quote(s, safe='/')` on the ASCII domain. -/
def quote (s : Str) : Str := (s.map quoteChar).flatten

/-- One component step of `posixpath.normpath`'s loop; `slashes` is the
number of initial slashes of the whole path. -/
def npStep (slashes : Nat) (acc : List Str) (comp : Str) : List Str :=
  if comp = [] ∨ comp = str "." then acc
  else if comp ≠ str ".." ∨ (slashes = 0 ∧ acc = []) ∨ acc.getLast? = some (str "..")
    then acc ++ [comp]
  else acc.dropLast

/-- Number of initial slashes `posixpath.normpath` keeps: one or, for a
path starting with exactly two slashes, two (POSIX gives `//` special
meaning). -/
def npSlashes (p : Str) : Nat :=
  if p.take 1 = str "/" then
    if p.take 2 = str "//" ∧ p.take 3 ≠ str "///" then 2 else 1
  else 0

/-- The normalised component list of `posixpath.normpath`. -/
def npComps (p : Str) : List Str :=
  (splitSlash p).foldl (npStep (npSlashes p)) []

/-- `posixpath.normpath`. -/
def normpath (p : Str) : Str :=
  if p = [] then str "."
  else
    let out := List.replicate (npSlashes p) '/' ++ joinSlash (npComps p)
    if out = [] then str "." else out

/-- Computation result: a value, or a raised error carrying its message
(`UriSchemaError` in `gfs.exceptions`). -/
inductive Res (α : Type) where
  | ok (a : α)
  | err (e : Str)
  deriving DecidableEq

/-- `gfs.utils.uri.uri_to_path` (POSIX branch; the `os.name == "nt"` fix
is skipped).  `os.path.normpath(Path(path_str))` is modelled as
`normpath` directly: `PurePosixPath`'s own normalisations (collapsing
duplicate slashes except an exact leading `//`, dropping `.` components
and trailing slashes, turning `""` into `.`) are all performed by
`normpath` as well. -/
def uri_to_path (fileUri : Str) : Res Str :=
  let p := urlparse fileUri []
  if p.scheme ≠ str "file" then .err (str "Unsupported scheme: " ++ p.scheme)
  else .ok (normpath (unquote p.pathStr))

/-- Lexical model of `pathlib.Path(v).resolve()` on POSIX with no
symlinks: absolutise against the current working directory `cwd`, then
normalise (for absolute inputs `normpath` eliminates every `..`, which
matches `resolve`'s lexical behaviour for non-existing components). -/
def pyResolve (cwd v : Str) : Str :=
  normpath (if v.take 1 = str "/" then v else cwd ++ '/' :: v)

/-- `pathlib.PurePosixPath.as_uri`: `"file://" + quote(path)`. -/
def path_as_uri (p : Str) : Str := str "file://" ++ quote p

/-- `gfs.anyuri.FileUri._validate`: a bare path (no `"://"`) is resolved
and converted to a `file://` URI; the URI must have scheme `file` and an
empty or `localhost` host; the stored value is `uri_to_path` of it. -/
def FileUri_validate (cwd v : Str) : Res Str :=
  let v1 := if containsSub (str "://") v = false then path_as_uri (pyResolve cwd v) else v
  let p := urlparse v1 []
  if p.scheme ≠ str "file" then .err (str "Invalid scheme: " ++ v)
  else if ¬ (p.netloc = [] ∨ p.netloc = str "localhost") then .err (str "Invalid netloc: " ++ v)
  else uri_to_path v1

/-- `gfs.anyuri.GSUri._validate`: an `http(s)` URL must have host
`storage.googleapis.com` and is rebuilt on that host; a `gs` URL folds
its host into the path of the rebuilt URL; anything else is rejected.
Note the `urlunparse` call receives the parsed params/query/fragment. -/
def GSUri_validate (v : Str) : Res Str :=
  let p := urlparse v []
  if p.scheme = str "http" ∨ p.scheme = str "https" then
    if p.netloc ≠ str "storage.googleapis.com" then .err (str "Invalid netloc: " ++ v)
    else .ok (urlunparse (str "https") (str "storage.googleapis.com")
        p.pathStr p.params p.query p.fragment)
  else if p.scheme = str "gs" then
    .ok (urlunparse (str "https") (str "storage.googleapis.com")
        (p.netloc ++ p.pathStr) p.params p.query p.fragment)
  else .err (str "Invalid GSUri: " ++ v)

/-- `gfs.anyuri.HttpUri._validate`: accept exactly the `http`/`https`
schemes and store the normalised URL. -/
def HttpUri_validate (v : Str) : Res Str :=
  let p := urlparse v []
  if p.scheme = str "http" ∨ p.scheme = str "https" then .ok (normalize_url v)
  else .err (str "Invalid scheme: " ++ v)

/-- The three locator variants (`GSUri`, `HttpUri`, `FileUri`). -/
inductive Variant where
  | gs
  | http
  | file
  deriving DecidableEq

/-- A classified locator: its variant (the Python subclass) and its
canonical stored string (the `str` content of the instance). -/
structure Locator where
  variant : Variant
  value : Str
  deriving DecidableEq

/-- `gfs.anyuri.AnyUri.validate` (= the `classify` operation of the
spec): try `GSUri`, then `HttpUri`, then `FileUri`, returning the first
success; raise `UriSchemaError` when all three fail.  `cwd` is the
process working directory consulted by `FileUri` for relative paths. -/
def classify (cwd v : Str) : Res Locator :=
  match GSUri_validate v with
  | .ok s => .ok ⟨.gs, s⟩
  | .err _ =>
    match HttpUri_validate v with
    | .ok s => .ok ⟨.http, s⟩
    | .err _ =>
      match FileUri_validate cwd v with
      | .ok s => .ok ⟨.file, s⟩
      | .err _ => .err (str "Invalid URI: " ++ v)

/-- `AnyUri.as_source`: the stored string itself (`str(self)`). -/
def as_source (x : Locator) : Str := x.value

/-- `as_uri` (the spec's `asDisplayForm`): `GSUri` replaces every
occurrence of the storage prefix with `gs://` (Python `str.replace`),
`FileUri` prepends `file://localhost`, and `HttpUri` inherits the
`AnyUri` default, which is `as_source`. -/
def as_uri (x : Locator) : Str :=
  match x.variant with
  | .gs => replaceAll (str "https://storage.googleapis.com/") (str "gs://") x.value
  | .http => x.value
  | .file => str "file://localhost" ++ x.value

-- sanity checks of the locator model against the doctests in anyuri.py
example : classify (str "/home") (str "/1.jpg") = .ok ⟨.file, str "/1.jpg"⟩ := by decide
example : classify (str "/home") (str "file:///1.jpg") = .ok ⟨.file, str "/1.jpg"⟩ := by decide
example : classify (str "/home") (str "file://localhost/1.jpg") = .ok ⟨.file, str "/1.jpg"⟩ := by decide
example : classify (str "/home") (str "gs://bucket/1.jpg") =
    .ok ⟨.gs, str "https://storage.googleapis.com/bucket/1.jpg"⟩ := by decide
example : classify (str "/home") (str "https://storage.googleapis.com/bucket/1.jpg") =
    .ok ⟨.gs, str "https://storage.googleapis.com/bucket/1.jpg"⟩ := by decide
example : classify (str "/home") (str "https://example.com/1.jpg") =
    .ok ⟨.http, str "https://example.com/1.jpg"⟩ := by decide
example : as_uri ⟨.file, str "/1.jpg"⟩ = str "file://localhost/1.jpg" := by decide
example : classify (str "/home") (str "ftp://x/y") = .err (str "Invalid URI: ftp://x/y") := by decide

/-- `gfs.utils.gs.is_legal_file_ext`: Python
`bool(re.match(r"^\.[A-Za-z0-9]{1,10}$", ext))` — a dot followed by one
to ten ASCII alphanumerics.  (The `$`-before-trailing-newline quirk of
`re` is unreachable here because `urlsplit` strips newlines from URLs.) -/
def is_legal_file_ext (e : Str) : Bool :=
  match e with
  | '.' :: rest => decide (1 ≤ rest.length) && decide (rest.length ≤ 10) && rest.all isAsciiAlnum
  | _ => false

/-- `os.path.splitext` (`posixpath` flavour): split at the last dot of
the last path segment, unless every character of the segment before that
dot is itself a dot (leading dots name hidden files, not extensions). -/
def splitext (p : Str) : Str × Str :=
  match lastIdx '.' p with
  | none => (p, [])
  | some di =>
    let si := match lastIdx '/' p with
      | some s => s + 1
      | none => 0
    if si ≤ di ∧ ((p.drop si).take (di - si)).any (fun c => c ≠ '.')
    then (p.take di, p.drop di)
    else (p, [])

/-- Last element of a nonempty list of path parts
(`path.split("/")[-1]`). -/
def lastPart (l : List Str) : Str :=
  match l.reverse with
  | [] => []
  | x :: _ => x

/-- `gfs.utils.gs.extract_ext_from_uri`: parse the locator's `as_uri`
form, take the last `/`-separated part of its path, split off the
extension, and return it only when it is legal. -/
def extract_ext_from_uri (x : Locator) : Option Str :=
  let p := urlparse (as_uri x) []
  let filename := lastPart (splitSlash p.pathStr)
  let ext := (splitext filename).2
  if is_legal_file_ext ext then some ext else none

/-- `gfs.temp`: suffix normalisation of `filepath` — `None` becomes
`.unknown`, and a missing leading dot is added. -/
def normSuffix : Option Str → Str
  | none => str ".unknown"
  | some s => if s.take 1 = str "." then s else '.' :: s

/-- `gfs.temp.filepath` — the name it produces: the thread's bound temp
directory if any (`get_threading_tempdir`), else the process-global temp
area, joined with an OS-generated fresh stem and the normalised suffix.
(The `prefix` argument, unused by the repository's callers, is folded
into the stem.) -/
def filepathName (binding : Option Str) (globalTmp : Str) (stem : Str)
    (suffix : Option Str) : Str :=
  (match binding with
   | some d => d
   | none => globalTmp) ++ '/' :: stem ++ normSuffix suffix

/-- `gfs.temp.filepath` — its effect on the file system, modelled as the
set of existing paths: `tempfile.NamedTemporaryFile` creates the file
(O_EXCL, at a name the OS guarantees fresh) and the `with` block deletes
it on close, so the function returns the name with the file system
unchanged. -/
def filepathRun (fs : List Str) (binding : Option Str) (globalTmp : Str)
    (stem : Str) (suffix : Option Str) : Str × List Str :=
  let p := filepathName binding globalTmp stem suffix
  let fsCreated := p :: fs
  (p, fsCreated.erase p)

/-- State seen by `gfs.temp.threading_tempdir`: whether the scope's
directory exists, and the worker's `_thread_locals.tempdir` binding. -/
structure TDState where
  dirExists : Bool
  binding : Option Str
  deriving DecidableEq

/-- Outcome of the body of a `with threading_tempdir()` block. -/
inductive BodyRes (α : Type) where
  | ok (a : α)
  | exn (e : Str)
  deriving DecidableEq

/-- `gfs.temp.threading_tempdir` as a generator-based context manager
(`@contextmanager`), run around `body`: `tempfile.TemporaryDirectory`
creates the directory `d`, `_thread_locals.tempdir = tempdir` binds it,
and the generator yields.  On normal completion the statement after the
yield (`_thread_locals.tempdir = None`) runs and then
`TemporaryDirectory.__exit__` removes the directory.  On an exception the
exception is thrown into the generator at the yield point, so the
statement after the yield is skipped — it is not in a `finally` — while
the inner `with` still removes the directory as the exception unwinds. -/
def threading_tempdir_run (d : Str) (body : Str → TDState → BodyRes α × TDState)
    (s0 : TDState) : BodyRes α × TDState :=
  let s1 : TDState := { s0 with dirExists := true, binding := some d }
  let r := body d s1
  match r.1 with
  | .ok a => (.ok a, { r.2 with binding := none, dirExists := false })
  | .exn e => (.exn e, { r.2 with dirExists := false })

/-- The typed error taxonomy of `gfs.store.local` (`gfs.exceptions`):
each wrapping error keeps its message and the original cause (`from e`). -/
inductive TransferError where
  | uriSchema (msg : Str)
  | download (msg : Str) (cause : Str)
  | fileCopy (msg : Str) (cause : Str)
  deriving DecidableEq

/-- `gfs.store.local`: classify the URI (a `UriSchemaError` from
classification propagates), allocate a destination path carrying the
inferred extension, then dispatch on the variant — `HttpUri` fetches over
HTTP wrapping failure as `DownloadError`, `FileUri` copies wrapping
failure as `FileCopyError`, `GSUri` fetches from object storage wrapping
failure as `DownloadError`.  The adapters (`download_from_http_url`,
`shutil.copy`, `download_from_gs_uri`) are external I/O and enter as
function parameters from source and target to a result or a raised
cause. -/
def localFn (cwd : Str) (binding : Option Str) (globalTmp : Str) (stem : Str)
    (httpFetch copyFile gsFetch : Str → Str → Res Str) (uri : Str) :
    Res Str ⊕ TransferError :=
  match classify cwd uri with
  | .err e => .inr (.uriSchema e)
  | .ok au =>
    let target := filepathName binding globalTmp stem (extract_ext_from_uri au)
    match au.variant with
    | .http =>
      match httpFetch au.value target with
      | .ok p => .inl (.ok p)
      | .err e => .inr (.download (str "failed to download " ++ au.value) e)
    | .file =>
      match copyFile au.value target with
      | .ok p => .inl (.ok p)
      | .err e => .inr (.fileCopy (str "failed to copy " ++ au.value) e)
    | .gs =>
      match gsFetch au.value target with
      | .ok p => .inl (.ok p)
      | .err e => .inr (.download (str "failed to download " ++ au.value) e)

-- sanity checks: extension inference and the claimed counterexamples
example : extract_ext_from_uri ⟨.http, str "https://x/y/z.PNG"⟩ = some (str ".PNG") := by decide
example : extract_ext_from_uri ⟨.http, str "https://x/y/z"⟩ = none := by decide
example : classify (str "/home") (str "file:///a%3Fb") = .ok ⟨.file, str "/a?b"⟩ := by decide
example : classify (str "/home") (str "file://localhost/a?b") = .ok ⟨.file, str "/a"⟩ := by decide
example : classify (str "/home") (str "file://") = .ok ⟨.file, str "."⟩ := by decide
example : classify (str "/home") (str ".") = .ok ⟨.file, str "/home"⟩ := by decide
example : classify (str "/home") (str "/a/b/../c") = .ok ⟨.file, str "/a/c"⟩ := by decide
example : classify (str "/home") (str "gs://b/k?x=1") =
    .ok ⟨.gs, str "https://storage.googleapis.com/b/k?x=1"⟩ := by decide

/-! Generic facts about the string primitives. -/

theorem splitOnFirst_not_mem {c : Char} {s : Str} (h : c ∉ s) :
    splitOnFirst c s = (s, none) := by
  induction s with
  | nil => rfl
  | cons a t ih =>
    have ha : a ≠ c := fun hac => h (hac ▸ List.mem_cons_self a t)
    have ht : c ∉ t := fun hc => h (List.mem_cons_of_mem a hc)
    simp [splitOnFirst, ha, ih ht]

theorem splitOnFirst_append {c : Char} {pre r : Str} (h : c ∉ pre) :
    splitOnFirst c (pre ++ c :: r) = (pre, some r) := by
  induction pre with
  | nil => simp [splitOnFirst]
  | cons a t ih =>
    have ha : a ≠ c := fun hac => h (hac ▸ List.mem_cons_self a t)
    have ht : c ∉ t := fun hc => h (List.mem_cons_of_mem a hc)
    simp [splitOnFirst, ha, ih ht]

theorem takeWhile_append_all {p : Char → Bool} {pre w : Str} (h : ∀ a ∈ pre, p a) :
    (pre ++ w).takeWhile p = pre ++ w.takeWhile p := by
  induction pre with
  | nil => rfl
  | cons a t ih =>
    have ha : p a := h a (List.mem_cons_self a t)
    simp [List.takeWhile_cons, ha, ih (fun x hx => h x (List.mem_cons_of_mem a hx))]

theorem dropWhile_append_all {p : Char → Bool} {pre w : Str} (h : ∀ a ∈ pre, p a) :
    (pre ++ w).dropWhile p = w.dropWhile p := by
  induction pre with
  | nil => rfl
  | cons a t ih =>
    have ha : p a := h a (List.mem_cons_self a t)
    simp [List.dropWhile_cons, ha, ih (fun x hx => h x (List.mem_cons_of_mem a hx))]

theorem filter_all {p : Char → Bool} {s : Str} (h : ∀ a ∈ s, p a) :
    s.filter p = s := by
  induction s with
  | nil => rfl
  | cons a t ih =>
    simp [List.filter_cons, h a (List.mem_cons_self a t),
      ih (fun x hx => h x (List.mem_cons_of_mem a hx))]

theorem stripPre_self_append (p t : Str) : stripPre p (p ++ t) = some t := by
  induction p with
  | nil => rfl
  | cons a s ih => simp [stripPre, ih]

theorem stripPre_eq_some {p s t : Str} : stripPre p s = some t ↔ s = p ++ t := by
  constructor
  · intro h
    induction p generalizing s with
    | nil => simpa [stripPre] using h
    | cons a q ih =>
      cases s with
      | nil => simp [stripPre] at h
      | cons b u =>
        by_cases hab : a = b
        · subst hab
          simp only [stripPre, if_pos rfl] at h
          simpa using ih h
        · simp [stripPre, hab] at h
  · rintro rfl
    exact stripPre_self_append p t

theorem containsSub_of_append (pat a b : Str) :
    containsSub pat (a ++ pat ++ b) = true := by
  induction a with
  | nil =>
    rw [List.nil_append]
    cases hp : (pat ++ b : Str) with
    | nil =>
      rcases List.append_eq_nil.mp hp with ⟨h1, h2⟩
      subst h1; subst h2; decide
    | cons c r =>
      have hsp : stripPre pat (c :: r) = some b := by
        rw [← hp]; exact stripPre_self_append pat b
      show ((stripPre pat (c :: r)).isSome || containsSub pat r) = true
      simp [hsp]
  | cons c t ih =>
    have hshape : ((c :: t : Str) ++ pat ++ b) = c :: (t ++ pat ++ b) := by simp
    rw [hshape]
    show ((stripPre pat (c :: (t ++ pat ++ b))).isSome || containsSub pat (t ++ pat ++ b)) = true
    rw [ih, Bool.or_true]

theorem containsSub_eq_false_cons {pat : Str} {c : Char} {s : Str}
    (h : containsSub pat (c :: s) = false) : containsSub pat s = false := by
  simp only [containsSub, Bool.or_eq_false_iff] at h
  exact h.2

theorem raGo_no_occurrence {old new : Str} :
    ∀ (f : Nat) (s : Str), containsSub old s = false → raGo old new f s = s := by
  intro f
  induction f with
  | zero => intro s _; cases s <;> rfl
  | succ g ih =>
    intro s hs
    cases s with
    | nil => rfl
    | cons c rest =>
      have hnp : stripPre old (c :: rest) = none := by
        cases hsp : stripPre old (c :: rest) with
        | none => rfl
        | some t => simp [containsSub, hsp] at hs
      simp only [raGo, hnp]
      rw [ih rest (containsSub_eq_false_cons hs)]

theorem replaceAll_single {old new rest : Str} (hne : old ≠ [])
    (h : containsSub old rest = false) :
    replaceAll old new (old ++ rest) = new ++ rest := by
  unfold replaceAll
  rw [if_neg hne]
  obtain ⟨o, os, rfl⟩ : ∃ o os, old = o :: os := by
    cases old with
    | nil => exact absurd rfl hne
    | cons o os => exact ⟨o, os, rfl⟩
  have hsp : stripPre (o :: os) (o :: (os ++ rest)) = some rest := by
    have := stripPre_self_append (o :: os) rest
    rwa [List.cons_append] at this
  have hlen : (((o :: os) ++ rest : Str)).length = os.length + rest.length + 1 := by
    simp only [List.length_append, List.length_cons]
    omega
  rw [hlen, List.cons_append]
  show raGo (o :: os) new (os.length + rest.length + 1) (o :: (os ++ rest)) = new ++ rest
  simp only [raGo, List.append_eq, hsp]
  rw [raGo_no_occurrence _ _ h]

/-! Facts about percent-encoding. -/

theorem unquote_cons_ne {c : Char} (s : Str) (h : c ≠ '%') :
    unquote (c :: s) = c :: unquote s := by
  rw [unquote.eq_def]
  split <;> simp_all

theorem unquote_percent_hex {a b : Char} (s : Str) (ha : isHexDig a = true)
    (hb : isHexDig b = true) :
    unquote ('%' :: a :: b :: s) = Char.ofNat (16 * hexVal a + hexVal b) :: unquote s := by
  show (if isHexDig a ∧ isHexDig b
    then Char.ofNat (16 * hexVal a + hexVal b) :: unquote s
    else '%' :: unquote (a :: b :: s)) = _
  rw [if_pos ⟨ha, hb⟩]

theorem unquote_no_percent {s : Str} (h : '%' ∉ s) : unquote s = s := by
  induction s with
  | nil => rfl
  | cons c t ih =>
    have hc : c ≠ '%' := fun e => h (e ▸ List.mem_cons_self c t)
    rw [unquote_cons_ne t hc, ih (fun hm => h (List.mem_cons_of_mem c hm))]

theorem hexDigitChar_lt16 {n : Nat} (h : n < 16) :
    isHexDig (hexDigitChar n) = true ∧ hexVal (hexDigitChar n) = n := by
  interval_cases n <;> exact ⟨by decide, by decide⟩

theorem safe_not_percent {c : Char} (h : isQuoteSafe c = true) : c ≠ '%' := by
  intro e
  rw [e] at h
  exact absurd h (by decide)

theorem quote_cons (c : Char) (t : Str) : quote (c :: t) = quoteChar c ++ quote t := by
  simp [quote]

theorem unquote_quote {s : Str} (h : AllAscii s) : unquote (quote s) = s := by
  induction s with
  | nil => rfl
  | cons c t ih =>
    have hc : c.toNat < 128 := h c (List.mem_cons_self c t)
    have ht : AllAscii t := fun x hx => h x (List.mem_cons_of_mem c hx)
    rw [quote_cons]
    by_cases hs : isQuoteSafe c = true
    · rw [show quoteChar c = [c] from by simp [quoteChar, hs]]
      rw [List.cons_append, List.nil_append]
      rw [unquote_cons_ne _ (safe_not_percent hs), ih ht]
    · have hsf : isQuoteSafe c = false := by
        rwa [Bool.not_eq_true] at hs
      rw [show quoteChar c = ['%', hexDigitChar (c.toNat / 16 % 16), hexDigitChar (c.toNat % 16)]
        from by simp [quoteChar, hsf]]
      have h1 : c.toNat / 16 % 16 < 16 := Nat.mod_lt _ (by norm_num)
      have h2 : c.toNat % 16 < 16 := Nat.mod_lt _ (by norm_num)
      obtain ⟨ha1, hv1⟩ := hexDigitChar_lt16 h1
      obtain ⟨ha2, hv2⟩ := hexDigitChar_lt16 h2
      rw [List.cons_append, List.cons_append, List.cons_append, List.nil_append]
      rw [unquote_percent_hex _ ha1 ha2, hv1, hv2]
      have hval : 16 * (c.toNat / 16 % 16) + c.toNat % 16 = c.toNat := by omega
      rw [hval, Char.ofNat_toNat, ih ht]

theorem mem_quote {c : Char} {s : Str} (h : c ∈ quote s) :
    isQuoteSafe c = true ∨ c = '%' ∨ isHexDig c = true := by
  induction s with
  | nil => simp [quote] at h
  | cons a t ih =>
    rw [quote_cons] at h
    rcases List.mem_append.mp h with h1 | h2
    · by_cases hs : isQuoteSafe a = true
      · rw [show quoteChar a = [a] from by simp [quoteChar, hs]] at h1
        simp at h1
        subst h1
        exact Or.inl hs
      · have hsf : isQuoteSafe a = false := by
          rwa [Bool.not_eq_true] at hs
        rw [show quoteChar a =
            ['%', hexDigitChar (a.toNat / 16 % 16), hexDigitChar (a.toNat % 16)]
          from by simp [quoteChar, hsf]] at h1
        simp at h1
        rcases h1 with rfl | rfl | rfl
        · exact Or.inr (Or.inl rfl)
        · exact Or.inr (Or.inr (hexDigitChar_lt16 (Nat.mod_lt _ (by norm_num))).1)
        · exact Or.inr (Or.inr (hexDigitChar_lt16 (Nat.mod_lt _ (by norm_num))).1)
    · exact ih h2

theorem quote_char_not_special {c : Char} {s : Str} (h : c ∈ quote s) :
    c ≠ '#' ∧ c ≠ '?' ∧ c ≠ '\t' ∧ c ≠ '\r' ∧ c ≠ '\n' := by
  rcases mem_quote h with hs | rfl | hx
  · refine ⟨?_, ?_, ?_, ?_, ?_⟩ <;> (intro e; rw [e] at hs; exact absurd hs (by decide))
  · exact ⟨by decide, by decide, by decide, by decide, by decide⟩
  · refine ⟨?_, ?_, ?_, ?_, ?_⟩ <;> (intro e; rw [e] at hx; exact absurd hx (by decide))

theorem quote_cons_slash (t : Str) : quote ('/' :: t) = '/' :: quote t := by
  rw [quote_cons]
  rfl

theorem take_one_eq_cons {c : Char} {s : Str} (h : s.take 1 = [c]) : ∃ t, s = c :: t := by
  cases s with
  | nil => simp at h
  | cons a t =>
    simp [List.take] at h
    exact ⟨t, by rw [h]⟩

/-! Facts about path splitting, joining and `normpath`. -/

theorem splitSlash_ne_nil (s : Str) : splitSlash s ≠ [] := by
  induction s with
  | nil => simp [splitSlash]
  | cons c t ih =>
    cases hsp : splitSlash t with
    | nil => exact absurd hsp ih
    | cons h l =>
      by_cases hc : c = '/' <;> simp [splitSlash, hsp, hc]

theorem splitSlash_cons_slash (s : Str) : splitSlash ('/' :: s) = [] :: splitSlash s := by
  cases hsp : splitSlash s with
  | nil => exact absurd hsp (splitSlash_ne_nil s)
  | cons h l => simp [splitSlash, hsp]

theorem splitSlash_cons_ne {c : Char} {s : Str} {h : Str} {t : List Str} (hc : c ≠ '/')
    (hsp : splitSlash s = h :: t) : splitSlash (c :: s) = (c :: h) :: t := by
  simp [splitSlash, hsp, hc]

theorem splitSlash_no_slash {x : Str} (hx : '/' ∉ x) : splitSlash x = [x] := by
  induction x with
  | nil => rfl
  | cons c t ih =>
    have hc : c ≠ '/' := fun e => hx (e ▸ List.mem_cons_self c t)
    have ht : '/' ∉ t := fun m => hx (List.mem_cons_of_mem c m)
    exact splitSlash_cons_ne hc (ih ht)

theorem splitSlash_append_seg {x : Str} (hx : '/' ∉ x) (r : Str) :
    splitSlash (x ++ '/' :: r) = x :: splitSlash r := by
  induction x with
  | nil => exact splitSlash_cons_slash r
  | cons c t ih =>
    have hc : c ≠ '/' := fun e => hx (e ▸ List.mem_cons_self c t)
    have ht : '/' ∉ t := fun m => hx (List.mem_cons_of_mem c m)
    rw [List.cons_append]
    exact splitSlash_cons_ne hc (ih ht)

theorem splitSlash_joinSlash {cs : List Str} (hch : ∀ x ∈ cs, '/' ∉ x) (hne : cs ≠ []) :
    splitSlash (joinSlash cs) = cs := by
  induction cs with
  | nil => exact absurd rfl hne
  | cons x rest ih =>
    cases rest with
    | nil => exact splitSlash_no_slash (hch x (List.mem_cons_self x []))
    | cons y ys =>
      rw [show joinSlash (x :: y :: ys) = x ++ '/' :: joinSlash (y :: ys) from rfl]
      rw [splitSlash_append_seg (hch x (List.mem_cons_self x (y :: ys)))]
      rw [ih (fun z hz => hch z (List.mem_cons_of_mem x hz)) (by simp)]

theorem mem_splitSlash_chars {s x : Str} (hx : x ∈ splitSlash s) {c : Char} (hc : c ∈ x) :
    c ∈ s := by
  induction s generalizing x with
  | nil =>
    simp [splitSlash] at hx
    subst hx
    simp at hc
  | cons a t ih =>
    cases hsp : splitSlash t with
    | nil => exact absurd hsp (splitSlash_ne_nil t)
    | cons h l =>
      by_cases ha : a = '/'
      · subst ha
        rw [splitSlash_cons_slash, hsp] at hx
        rcases List.mem_cons.mp hx with rfl | hx2
        · simp at hc
        · exact List.mem_cons_of_mem _ (ih (hsp ▸ hx2) hc)
      · rw [splitSlash_cons_ne ha hsp] at hx
        rcases List.mem_cons.mp hx with rfl | hx2
        · rcases List.mem_cons.mp hc with rfl | hc2
          · exact List.mem_cons_self c t
          · exact List.mem_cons_of_mem _ (ih (hsp ▸ List.mem_cons_self h l) hc2)
        · exact List.mem_cons_of_mem _ (ih (hsp ▸ List.mem_cons_of_mem h hx2) hc)

theorem splitSlash_elem_no_slash {s x : Str} (hx : x ∈ splitSlash s) : '/' ∉ x := by
  induction s generalizing x with
  | nil =>
    simp [splitSlash] at hx
    subst hx
    simp
  | cons a t ih =>
    cases hsp : splitSlash t with
    | nil => exact absurd hsp (splitSlash_ne_nil t)
    | cons h l =>
      by_cases ha : a = '/'
      · subst ha
        rw [splitSlash_cons_slash, hsp] at hx
        rcases List.mem_cons.mp hx with rfl | hx2
        · simp
        · exact ih (hsp ▸ hx2)
      · rw [splitSlash_cons_ne ha hsp] at hx
        rcases List.mem_cons.mp hx with rfl | hx2
        · intro hm
          rcases List.mem_cons.mp hm with h1 | h2
          · exact ha h1.symm
          · exact ih (hsp ▸ List.mem_cons_self h l) h2
        · exact ih (hsp ▸ List.mem_cons_of_mem h hx2)

theorem mem_joinSlash {cs : List Str} {c : Char} (h : c ∈ joinSlash cs) :
    c = '/' ∨ ∃ x ∈ cs, c ∈ x := by
  induction cs with
  | nil => simp [joinSlash] at h
  | cons x rest ih =>
    cases rest with
    | nil => exact Or.inr ⟨x, List.mem_cons_self x [], h⟩
    | cons y ys =>
      rw [show joinSlash (x :: y :: ys) = x ++ '/' :: joinSlash (y :: ys) from rfl] at h
      rcases List.mem_append.mp h with h1 | h2
      · exact Or.inr ⟨x, List.mem_cons_self x (y :: ys), h1⟩
      · rcases List.mem_cons.mp h2 with rfl | h3
        · exact Or.inl rfl
        · rcases ih h3 with hs | ⟨z, hz, hcz⟩
          · exact Or.inl hs
          · exact Or.inr ⟨z, List.mem_cons_of_mem x hz, hcz⟩

theorem npStep_mem {k : Nat} {acc : List Str} {comp x : Str} (hx : x ∈ npStep k acc comp) :
    x ∈ acc ∨ x = comp := by
  unfold npStep at hx
  split_ifs at hx
  · exact Or.inl hx
  · rcases List.mem_append.mp hx with h1 | h1
    · exact Or.inl h1
    · simp at h1
      exact Or.inr h1
  · rw [List.dropLast_eq_take] at hx
    exact Or.inl (List.take_subset _ _ hx)

theorem foldl_npStep_mem {k : Nat} {l : List Str} {acc : List Str} {x : Str}
    (hx : x ∈ l.foldl (npStep k) acc) : x ∈ acc ∨ x ∈ l := by
  induction l generalizing acc with
  | nil => exact Or.inl hx
  | cons a rest ih =>
    rw [List.foldl_cons] at hx
    rcases ih hx with h1 | h1
    · rcases npStep_mem h1 with h2 | rfl
      · exact Or.inl h2
      · exact Or.inr (List.mem_cons_self x rest)
    · exact Or.inr (List.mem_cons_of_mem a h1)

theorem mem_normpath {p : Str} {c : Char} (h : c ∈ normpath p) :
    c = '/' ∨ c = '.' ∨ c ∈ p := by
  have hdot : str "." = ['.'] := by decide
  by_cases hp : p = []
  · subst hp
    rw [show normpath [] = str "." from rfl, hdot] at h
    rcases (by simpa using h : c = '.') with rfl
    exact Or.inr (Or.inl rfl)
  · rw [normpath, if_neg hp] at h
    by_cases ho : (List.replicate (npSlashes p) '/' ++ joinSlash (npComps p) : Str) = []
    · rw [if_pos ho, hdot] at h
      rcases (by simpa using h : c = '.') with rfl
      exact Or.inr (Or.inl rfl)
    · rw [if_neg ho] at h
      rcases List.mem_append.mp h with h1 | h1
      · exact Or.inl (List.eq_of_mem_replicate h1)
      · rcases mem_joinSlash h1 with rfl | ⟨x, hx, hcx⟩
        · exact Or.inl rfl
        · rcases foldl_npStep_mem hx with h2 | h2
          · simp at h2
          · exact Or.inr (Or.inr (mem_splitSlash_chars h2 hcx))

theorem ascii_normpath {p : Str} (h : AllAscii p) : AllAscii (normpath p) := by
  intro c hc
  rcases mem_normpath hc with rfl | rfl | hm
  · decide
  · decide
  · exact h c hm

theorem foldl_npStep_good {k : Nat} (hk : k ≠ 0) (l : List Str) :
    ∀ acc, (∀ x ∈ acc, x ≠ [] ∧ x ≠ str "." ∧ x ≠ str "..") →
      ∀ x ∈ l.foldl (npStep k) acc, x ≠ [] ∧ x ≠ str "." ∧ x ≠ str ".." := by
  induction l with
  | nil => intro acc hacc; exact hacc
  | cons a rest ih =>
    intro acc hacc
    rw [List.foldl_cons]
    apply ih
    intro x hx
    unfold npStep at hx
    split_ifs at hx with h1 h2
    · exact hacc x hx
    · rcases List.mem_append.mp hx with hxa | hxa
      · exact hacc x hxa
      · simp only [List.mem_singleton] at hxa
        subst hxa
        push_neg at h1
        refine ⟨h1.1, h1.2, ?_⟩
        rcases h2 with h2 | h2 | h2
        · exact h2
        · exact absurd h2.1 hk
        · exact absurd rfl (hacc _ (List.mem_of_getLast?_eq_some h2)).2.2
    · rw [List.dropLast_eq_take] at hx
      exact hacc x (List.take_subset _ _ hx)

theorem foldl_npStep_id {k : Nat} {l : List Str}
    (hl : ∀ x ∈ l, x ≠ [] ∧ x ≠ str "." ∧ x ≠ str "..") :
    ∀ acc, l.foldl (npStep k) acc = acc ++ l := by
  induction l with
  | nil => intro acc; simp
  | cons a rest ih =>
    intro acc
    have ha := hl a (List.mem_cons_self a rest)
    have hstep : npStep k acc a = acc ++ [a] := by
      unfold npStep
      rw [if_neg (by push_neg; exact ⟨ha.1, ha.2.1⟩), if_pos (Or.inl ha.2.2)]
    rw [List.foldl_cons, hstep, ih (fun x hx => hl x (List.mem_cons_of_mem a hx))]
    simp

theorem npSlashes_pos {p : Str} (hp : p.take 1 = str "/") :
    npSlashes p = 1 ∨ npSlashes p = 2 := by
  unfold npSlashes
  rw [if_pos hp]
  split_ifs <;> simp

theorem normpath_eq_abs {p : Str} (hp : p.take 1 = str "/") :
    normpath p = List.replicate (npSlashes p) '/' ++ joinSlash (npComps p) := by
  have hne : p ≠ [] := by
    intro e
    rw [e] at hp
    exact absurd hp (by decide)
  rw [normpath, if_neg hne]
  have hout : (List.replicate (npSlashes p) '/' ++ joinSlash (npComps p) : Str) ≠ [] := by
    rcases npSlashes_pos hp with h | h <;> simp [h]
  rw [if_neg hout]

theorem normpath_take_abs {p : Str} (hp : p.take 1 = str "/") :
    (normpath p).take 1 = str "/" := by
  rw [normpath_eq_abs hp, show str "/" = ['/'] from by decide]
  rcases npSlashes_pos hp with h | h <;> rw [h] <;> rfl

theorem normpath_idem_abs {p : Str} (hp : p.take 1 = str "/") :
    normpath (normpath p) = normpath p := by
  have h1 := normpath_eq_abs hp
  have hkp := npSlashes_pos hp
  have hk0 : npSlashes p ≠ 0 := by rcases hkp with h | h <;> omega
  have hgood : ∀ x ∈ npComps p, x ≠ [] ∧ x ≠ str "." ∧ x ≠ str ".." :=
    foldl_npStep_good hk0 (splitSlash p) [] (by simp)
  have hnoslash : ∀ x ∈ npComps p, '/' ∉ x := by
    intro x hx
    rcases foldl_npStep_mem hx with h | h
    · simp at h
    · exact splitSlash_elem_no_slash h
  cases hcs : npComps p with
  | nil =>
    rcases hkp with h | h <;> rw [h1, hcs, h] <;> decide
  | cons c0 cs' =>
    have hc0mem : c0 ∈ npComps p := by rw [hcs]; exact List.mem_cons_self c0 cs'
    obtain ⟨d, dt, rfl⟩ : ∃ d dt, c0 = d :: dt := by
      cases c0 with
      | nil => exact absurd rfl (hgood [] hc0mem).1
      | cons d dt => exact ⟨d, dt, rfl⟩
    have hd : d ≠ '/' := by
      intro e
      exact hnoslash (d :: dt) hc0mem (e ▸ List.mem_cons_self d dt)
    have hnoslash2 : ∀ x ∈ ((d :: dt) :: cs' : List Str), '/' ∉ x := by
      rw [← hcs]; exact hnoslash
    have hgood2 : ∀ x ∈ ((d :: dt) :: cs' : List Str), x ≠ [] ∧ x ≠ str "." ∧ x ≠ str ".." := by
      rw [← hcs]; exact hgood
    obtain ⟨qt, hqe⟩ : ∃ qt, joinSlash ((d :: dt) :: cs') = d :: qt := by
      cases cs' with
      | nil => exact ⟨dt, rfl⟩
      | cons y ys => exact ⟨dt ++ '/' :: joinSlash (y :: ys), rfl⟩
    have hsplitq : splitSlash (joinSlash ((d :: dt) :: cs')) = (d :: dt) :: cs' :=
      splitSlash_joinSlash hnoslash2 (by simp)
    rcases hkp with hk | hk
    · have hval : normpath p = '/' :: joinSlash ((d :: dt) :: cs') := by
        rw [h1, hcs, hk]
        rfl
      have habs2 : ('/' :: joinSlash ((d :: dt) :: cs') : Str).take 1 = str "/" := by
        rw [show str "/" = ['/'] from by decide]
        rfl
      have hsl : npSlashes ('/' :: joinSlash ((d :: dt) :: cs')) = 1 := by
        unfold npSlashes
        rw [if_pos habs2, hqe, if_neg]
        intro hcon
        rcases hcon with ⟨h2, _⟩
        rw [show str "//" = ['/', '/'] from by decide] at h2
        simp [List.take] at h2
        exact hd h2
      have hcomps : npComps ('/' :: joinSlash ((d :: dt) :: cs')) = (d :: dt) :: cs' := by
        unfold npComps
        rw [hsl, splitSlash_cons_slash, hsplitq, List.foldl_cons,
          show npStep 1 [] [] = [] from by simp [npStep],
          foldl_npStep_id hgood2 []]
        simp
      rw [hval, normpath_eq_abs habs2, hsl, hcomps]
      rfl
    · have hval : normpath p = '/' :: '/' :: joinSlash ((d :: dt) :: cs') := by
        rw [h1, hcs, hk]
        rfl
      have habs2 : ('/' :: '/' :: joinSlash ((d :: dt) :: cs') : Str).take 1 = str "/" := by
        rw [show str "/" = ['/'] from by decide]
        rfl
      have hsl : npSlashes ('/' :: '/' :: joinSlash ((d :: dt) :: cs')) = 2 := by
        unfold npSlashes
        rw [if_pos habs2, hqe, if_pos]
        constructor
        · rfl
        · intro hcon
          rw [show str "///" = ['/', '/', '/'] from by decide] at hcon
          simp [List.take] at hcon
          exact hd hcon
      have hcomps : npComps ('/' :: '/' :: joinSlash ((d :: dt) :: cs')) = (d :: dt) :: cs' := by
        unfold npComps
        rw [hsl, splitSlash_cons_slash, splitSlash_cons_slash, hsplitq, List.foldl_cons,
          show npStep 2 [] [] = [] from by simp [npStep], List.foldl_cons,
          show npStep 2 [] [] = [] from by simp [npStep],
          foldl_npStep_id hgood2 []]
        simp
      rw [hval, normpath_eq_abs habs2, hsl, hcomps]
      rfl

/-! Composite facts about URL parsing. -/

theorem usFrag_not_mem {u : Str} (h : '#' ∉ u) : usFrag u = (u, []) := by
  unfold usFrag
  rw [splitOnFirst_not_mem h]
  rfl

theorem usQuery_not_mem {u : Str} (h : '?' ∉ u) : usQuery u = (u, []) := by
  unfold usQuery
  rw [splitOnFirst_not_mem h]
  rfl

theorem usScheme_no_colon {d u : Str} (h : ':' ∉ u) : usScheme d u = (d, u) := by
  unfold usScheme
  rw [splitOnFirst_not_mem h]

theorem usScheme_head_slash (d : Str) (u : Str) : usScheme d ('/' :: u) = (d, '/' :: u) := by
  unfold usScheme
  rw [show splitOnFirst ':' ('/' :: u) =
      (('/' :: (splitOnFirst ':' u).1 : Str), (splitOnFirst ':' u).2) from by
    simp [splitOnFirst]]
  cases (splitOnFirst ':' u).2 with
  | none => rfl
  | some a => simp [show isAsciiAlpha '/' = false from by decide]

theorem usScheme_file (d r : Str) : usScheme d (str "file" ++ ':' :: r) = (str "file", r) := rfl

theorem usScheme_gs (d r : Str) : usScheme d (str "gs" ++ ':' :: r) = (str "gs", r) := rfl

theorem usScheme_https (d r : Str) : usScheme d (str "https" ++ ':' :: r) = (str "https", r) := rfl

theorem usNetloc_localhost (w : Str) :
    usNetloc (str "//localhost/" ++ w) = (str "localhost", '/' :: w) := rfl

theorem usNetloc_empty_host (w : Str) :
    usNetloc (str "///" ++ w) = ([], '/' :: w) := rfl

theorem notUnsafe_of {c : Char} (h3 : c ≠ '\t') (h4 : c ≠ '\r') (h5 : c ≠ '\n') :
    notUnsafeUrlByte c = true := by
  simp [notUnsafeUrlByte, h3, h4, h5]

theorem filter_clean_append (lit : Str) (hlit : lit.filter notUnsafeUrlByte = lit) {w : Str}
    (hw : ∀ c ∈ w, notUnsafeUrlByte c = true) :
    (lit ++ w).filter notUnsafeUrlByte = lit ++ w := by
  rw [List.filter_append, hlit, filter_all hw]

theorem urlsplit_build {url0 d u1 : Str} (hf : url0.filter notUnsafeUrlByte = u1) :
    urlsplit url0 d = ⟨(usScheme d u1).1, (usNetloc (usScheme d u1).2).1,
      (usQuery (usFrag (usNetloc (usScheme d u1).2).2).1).1,
      (usQuery (usFrag (usNetloc (usScheme d u1).2).2).1).2,
      (usFrag (usNetloc (usScheme d u1).2).2).2⟩ := by
  unfold urlsplit
  rw [hf]

theorem urlparse_of_urlsplit {u d : Str} {r : SplitResult} (h : urlsplit u d = r)
    (hp : ¬(r.scheme ∈ usesParams ∧ ';' ∈ r.pathStr)) :
    urlparse u d = ⟨r.scheme, r.netloc, r.pathStr, [], r.query, r.fragment⟩ := by
  unfold urlparse
  rw [h, if_neg hp]

theorem usNetloc_pre {pre rest : Str} (hpre : ∀ c ∈ pre, notNetlocDelim c = true) :
    usNetloc (str "//" ++ (pre ++ '/' :: rest)) = (pre, '/' :: rest) := by
  unfold usNetloc
  rw [if_pos (by rfl)]
  rw [show ((str "//" ++ (pre ++ '/' :: rest) : Str)).drop 2 = pre ++ '/' :: rest from rfl]
  rw [takeWhile_append_all hpre, dropWhile_append_all hpre]
  rw [show (('/' :: rest : Str)).takeWhile notNetlocDelim = [] from rfl]
  rw [show (('/' :: rest : Str)).dropWhile notNetlocDelim = '/' :: rest from rfl]
  rw [List.append_nil]

theorem urlparse_file_localhost {w : Str}
    (hw : ∀ c ∈ w, c ≠ '#' ∧ c ≠ '?' ∧ c ≠ '\t' ∧ c ≠ '\r' ∧ c ≠ '\n') :
    urlparse (str "file://localhost/" ++ w) [] =
      ⟨str "file", str "localhost", '/' :: w, [], [], []⟩ := by
  have hfw : ∀ c ∈ w, notUnsafeUrlByte c = true := fun c hc =>
    notUnsafe_of (hw c hc).2.2.1 (hw c hc).2.2.2.1 (hw c hc).2.2.2.2
  have hno_hash : '#' ∉ ('/' :: w : Str) := by
    intro hm
    rcases List.mem_cons.mp hm with h | h
    · exact absurd h (by decide)
    · exact (hw '#' h).1 rfl
  have hno_q : '?' ∉ ('/' :: w : Str) := by
    intro hm
    rcases List.mem_cons.mp hm with h | h
    · exact absurd h (by decide)
    · exact (hw '?' h).2.1 rfl
  have hsplit : urlsplit (str "file://localhost/" ++ w) [] =
      ⟨str "file", str "localhost", '/' :: w, [], []⟩ := by
    rw [urlsplit_build (filter_clean_append _ (by decide) hfw)]
    rw [show (str "file://localhost/" ++ w : Str) =
        str "file" ++ ':' :: (str "//" ++ (str "localhost" ++ '/' :: w)) from rfl]
    rw [usScheme_file]
    rw [show ((str "file", str "//" ++ (str "localhost" ++ '/' :: w)) : Str × Str).2 =
        str "//" ++ (str "localhost" ++ '/' :: w) from rfl]
    rw [usNetloc_pre (by decide)]
    rw [show ((str "localhost", '/' :: w) : Str × Str).2 = '/' :: w from rfl]
    rw [usFrag_not_mem hno_hash]
    rw [show (('/' :: w, []) : Str × Str).1 = '/' :: w from rfl]
    rw [usQuery_not_mem hno_q]
  refine urlparse_of_urlsplit hsplit ?_
  rintro ⟨h1, _⟩
  exact (by decide : (str "file" : Str) ∉ usesParams) h1

theorem urlparse_file_slashes {w : Str}
    (hw : ∀ c ∈ w, c ≠ '#' ∧ c ≠ '?' ∧ c ≠ '\t' ∧ c ≠ '\r' ∧ c ≠ '\n') :
    urlparse (str "file://" ++ '/' :: w) [] = ⟨str "file", [], '/' :: w, [], [], []⟩ := by
  have hfw : ∀ c ∈ w, notUnsafeUrlByte c = true := fun c hc =>
    notUnsafe_of (hw c hc).2.2.1 (hw c hc).2.2.2.1 (hw c hc).2.2.2.2
  have hno_hash : '#' ∉ ('/' :: w : Str) := by
    intro hm
    rcases List.mem_cons.mp hm with h | h
    · exact absurd h (by decide)
    · exact (hw '#' h).1 rfl
  have hno_q : '?' ∉ ('/' :: w : Str) := by
    intro hm
    rcases List.mem_cons.mp hm with h | h
    · exact absurd h (by decide)
    · exact (hw '?' h).2.1 rfl
  have hsplit : urlsplit (str "file://" ++ '/' :: w) [] =
      ⟨str "file", [], '/' :: w, [], []⟩ := by
    rw [urlsplit_build (filter_clean_append (str "file://") (by decide)
      (fun c hc => by
        rcases List.mem_cons.mp hc with h | h
        · rw [h]; decide
        · exact hfw c h))]
    rw [show (str "file://" ++ '/' :: w : Str) =
        str "file" ++ ':' :: (str "//" ++ ([] ++ '/' :: w)) from rfl]
    rw [usScheme_file]
    rw [show ((str "file", str "//" ++ ([] ++ '/' :: w)) : Str × Str).2 =
        str "//" ++ ([] ++ '/' :: w) from rfl]
    rw [usNetloc_pre (by simp)]
    rw [show (([], '/' :: w) : Str × Str).2 = '/' :: w from rfl]
    rw [usFrag_not_mem hno_hash]
    rw [show (('/' :: w, []) : Str × Str).1 = '/' :: w from rfl]
    rw [usQuery_not_mem hno_q]
  refine urlparse_of_urlsplit hsplit ?_
  rintro ⟨h1, _⟩
  exact (by decide : (str "file" : Str) ∉ usesParams) h1

theorem urlparse_gs_display {bucket tail : Str}
    (hb : ∀ c ∈ bucket, c ≠ '/' ∧ c ≠ '?' ∧ c ≠ '#' ∧ c ≠ '\t' ∧ c ≠ '\r' ∧ c ≠ '\n')
    (ht : ∀ c ∈ tail, c ≠ '#' ∧ c ≠ '?' ∧ c ≠ '\t' ∧ c ≠ '\r' ∧ c ≠ '\n') :
    urlparse (str "gs://" ++ (bucket ++ '/' :: tail)) [] =
      ⟨str "gs", bucket, '/' :: tail, [], [], []⟩ := by
  have hclean : ∀ c ∈ (bucket ++ '/' :: tail : Str), notUnsafeUrlByte c = true := by
    intro c hc
    rcases List.mem_append.mp hc with h | h
    · exact notUnsafe_of (hb c h).2.2.2.1 (hb c h).2.2.2.2.1 (hb c h).2.2.2.2.2
    · rcases List.mem_cons.mp h with rfl | h
      · decide
      · exact notUnsafe_of (ht c h).2.2.1 (ht c h).2.2.2.1 (ht c h).2.2.2.2
  have hno_hash : '#' ∉ ('/' :: tail : Str) := by
    intro hm
    rcases List.mem_cons.mp hm with h | h
    · exact absurd h (by decide)
    · exact (ht '#' h).1 rfl
  have hno_q : '?' ∉ ('/' :: tail : Str) := by
    intro hm
    rcases List.mem_cons.mp hm with h | h
    · exact absurd h (by decide)
    · exact (ht '?' h).2.1 rfl
  have hsplit : urlsplit (str "gs://" ++ (bucket ++ '/' :: tail)) [] =
      ⟨str "gs", bucket, '/' :: tail, [], []⟩ := by
    rw [urlsplit_build (filter_clean_append (str "gs://") (by decide) hclean)]
    rw [show (str "gs://" ++ (bucket ++ '/' :: tail) : Str) =
        str "gs" ++ ':' :: (str "//" ++ (bucket ++ '/' :: tail)) from rfl]
    rw [usScheme_gs]
    rw [show ((str "gs", str "//" ++ (bucket ++ '/' :: tail)) : Str × Str).2 =
        str "//" ++ (bucket ++ '/' :: tail) from rfl]
    rw [usNetloc_pre (fun c hc =>
      by simp [notNetlocDelim, (hb c hc).1, (hb c hc).2.1, (hb c hc).2.2.1])]
    rw [show ((bucket, '/' :: tail) : Str × Str).2 = '/' :: tail from rfl]
    rw [usFrag_not_mem hno_hash]
    rw [show (('/' :: tail, []) : Str × Str).1 = '/' :: tail from rfl]
    rw [usQuery_not_mem hno_q]
  refine urlparse_of_urlsplit hsplit ?_
  rintro ⟨h1, _⟩
  exact (by decide : (str "gs" : Str) ∉ usesParams) h1

theorem urlparse_gs_canon {bucket tail : Str}
    (hb : ∀ c ∈ bucket,
      c ≠ '/' ∧ c ≠ '?' ∧ c ≠ '#' ∧ c ≠ ';' ∧ c ≠ '\t' ∧ c ≠ '\r' ∧ c ≠ '\n')
    (ht : ∀ c ∈ tail, c ≠ '#' ∧ c ≠ '?' ∧ c ≠ ';' ∧ c ≠ '\t' ∧ c ≠ '\r' ∧ c ≠ '\n') :
    urlparse (str "https://storage.googleapis.com/" ++ (bucket ++ '/' :: tail)) [] =
      ⟨str "https", str "storage.googleapis.com", '/' :: (bucket ++ '/' :: tail),
        [], [], []⟩ := by
  have hclean : ∀ c ∈ (bucket ++ '/' :: tail : Str), notUnsafeUrlByte c = true := by
    intro c hc
    rcases List.mem_append.mp hc with h | h
    · exact notUnsafe_of (hb c h).2.2.2.2.1 (hb c h).2.2.2.2.2.1 (hb c h).2.2.2.2.2.2
    · rcases List.mem_cons.mp h with rfl | h
      · decide
      · exact notUnsafe_of (ht c h).2.2.2.1 (ht c h).2.2.2.2.1 (ht c h).2.2.2.2.2
  have hmem_path : ∀ c ∈ ('/' :: (bucket ++ '/' :: tail) : Str),
      c ≠ '#' ∧ c ≠ '?' ∧ c ≠ ';' := by
    intro c hc
    rcases List.mem_cons.mp hc with rfl | hc
    · exact ⟨by decide, by decide, by decide⟩
    · rcases List.mem_append.mp hc with h | h
      · exact ⟨(hb c h).2.2.1, (hb c h).2.1, (hb c h).2.2.2.1⟩
      · rcases List.mem_cons.mp h with rfl | h
        · exact ⟨by decide, by decide, by decide⟩
        · exact ⟨(ht c h).1, (ht c h).2.1, (ht c h).2.2.1⟩
  have hno_hash : '#' ∉ ('/' :: (bucket ++ '/' :: tail) : Str) := by
    intro hm
    exact (hmem_path '#' hm).1 rfl
  have hno_q : '?' ∉ ('/' :: (bucket ++ '/' :: tail) : Str) := by
    intro hm
    exact (hmem_path '?' hm).2.1 rfl
  have hsplit : urlsplit (str "https://storage.googleapis.com/" ++ (bucket ++ '/' :: tail)) [] =
      ⟨str "https", str "storage.googleapis.com", '/' :: (bucket ++ '/' :: tail), [], []⟩ := by
    rw [urlsplit_build (filter_clean_append (str "https://storage.googleapis.com/")
      (by decide) hclean)]
    rw [show (str "https://storage.googleapis.com/" ++ (bucket ++ '/' :: tail) : Str) =
        str "https" ++ ':' ::
          (str "//" ++ (str "storage.googleapis.com" ++ '/' :: (bucket ++ '/' :: tail)))
      from rfl]
    rw [usScheme_https]
    rw [show ((str "https",
        str "//" ++ (str "storage.googleapis.com" ++ '/' :: (bucket ++ '/' :: tail)))
        : Str × Str).2 =
        str "//" ++ (str "storage.googleapis.com" ++ '/' :: (bucket ++ '/' :: tail)) from rfl]
    rw [usNetloc_pre (by decide)]
    rw [show ((str "storage.googleapis.com", '/' :: (bucket ++ '/' :: tail)) : Str × Str).2 =
        '/' :: (bucket ++ '/' :: tail) from rfl]
    rw [usFrag_not_mem hno_hash]
    rw [show (('/' :: (bucket ++ '/' :: tail), []) : Str × Str).1 =
        '/' :: (bucket ++ '/' :: tail) from rfl]
    rw [usQuery_not_mem hno_q]
  refine urlparse_of_urlsplit hsplit ?_
  rintro ⟨_, h2⟩
  exact (hmem_path ';' h2).2.2 rfl

theorem urlsplit_scheme_head_slash {v d : Str} (hv : v.take 1 = str "/")
    (hclean : ∀ c ∈ v, notUnsafeUrlByte c = true) : (urlsplit v d).scheme = d := by
  obtain ⟨t, rfl⟩ := take_one_eq_cons (by
    rw [show str "/" = ['/'] from by decide] at hv
    exact hv)
  rw [urlsplit_build (filter_all hclean), usScheme_head_slash]

theorem urlparse_scheme (u d : Str) : (urlparse u d).scheme = (urlsplit u d).scheme := by
  simp only [urlparse]
  by_cases h : (urlsplit u d).scheme ∈ usesParams ∧ ';' ∈ (urlsplit u d).pathStr
  · rw [if_pos h]
  · rw [if_neg h]

/-! Facts about the variant validators and `classify`. -/

theorem GSUri_validate_err_of_scheme {v : Str}
    (h1 : (urlparse v []).scheme ≠ str "http") (h2 : (urlparse v []).scheme ≠ str "https")
    (h3 : (urlparse v []).scheme ≠ str "gs") :
    GSUri_validate v = .err (str "Invalid GSUri: " ++ v) := by
  simp only [GSUri_validate]
  rw [if_neg (fun hor => hor.elim h1 h2), if_neg h3]

theorem GSUri_validate_err_of_netloc {v : Str}
    (hs : (urlparse v []).scheme = str "http" ∨ (urlparse v []).scheme = str "https")
    (hn : (urlparse v []).netloc ≠ str "storage.googleapis.com") :
    GSUri_validate v = .err (str "Invalid netloc: " ++ v) := by
  simp only [GSUri_validate]
  rw [if_pos hs, if_pos hn]

theorem GSUri_validate_ok_https {v : Str}
    (hs : (urlparse v []).scheme = str "http" ∨ (urlparse v []).scheme = str "https")
    (hn : (urlparse v []).netloc = str "storage.googleapis.com") :
    GSUri_validate v = .ok (urlunparse (str "https") (str "storage.googleapis.com")
      (urlparse v []).pathStr (urlparse v []).params
      (urlparse v []).query (urlparse v []).fragment) := by
  simp only [GSUri_validate]
  rw [if_pos hs, if_neg (fun hne => hne hn)]

theorem GSUri_validate_ok_gs {v : Str}
    (h1 : (urlparse v []).scheme ≠ str "http") (h2 : (urlparse v []).scheme ≠ str "https")
    (h3 : (urlparse v []).scheme = str "gs") :
    GSUri_validate v = .ok (urlunparse (str "https") (str "storage.googleapis.com")
      ((urlparse v []).netloc ++ (urlparse v []).pathStr) (urlparse v []).params
      (urlparse v []).query (urlparse v []).fragment) := by
  simp only [GSUri_validate]
  rw [if_neg (fun hor => hor.elim h1 h2), if_pos h3]

theorem HttpUri_validate_ok {v : Str}
    (hs : (urlparse v []).scheme = str "http" ∨ (urlparse v []).scheme = str "https") :
    HttpUri_validate v = .ok (normalize_url v) := by
  simp only [HttpUri_validate]
  rw [if_pos hs]

theorem HttpUri_validate_err {v : Str}
    (h1 : (urlparse v []).scheme ≠ str "http") (h2 : (urlparse v []).scheme ≠ str "https") :
    HttpUri_validate v = .err (str "Invalid scheme: " ++ v) := by
  simp only [HttpUri_validate]
  rw [if_neg (fun hor => hor.elim h1 h2)]

theorem FileUri_validate_with_sep_ok {cwd v : Str}
    (hc : containsSub (str "://") v = true)
    (hs : (urlparse v []).scheme = str "file")
    (hn : (urlparse v []).netloc = [] ∨ (urlparse v []).netloc = str "localhost") :
    FileUri_validate cwd v = .ok (normpath (unquote (urlparse v []).pathStr)) := by
  have hv1 : (if containsSub (str "://") v = false then path_as_uri (pyResolve cwd v) else v) = v := by
    rw [hc]
    simp
  simp only [FileUri_validate]
  rw [hv1, if_neg (fun hne => hne hs), if_neg (fun hnot => hnot hn)]
  simp only [uri_to_path]
  rw [if_neg (fun hne => hne hs)]

theorem FileUri_validate_err_scheme {cwd v : Str}
    (hc : containsSub (str "://") v = true)
    (hs : (urlparse v []).scheme ≠ str "file") :
    FileUri_validate cwd v = .err (str "Invalid scheme: " ++ v) := by
  have hv1 : (if containsSub (str "://") v = false then path_as_uri (pyResolve cwd v) else v) = v := by
    rw [hc]
    simp
  simp only [FileUri_validate]
  rw [hv1, if_pos hs]

theorem FileUri_validate_err_netloc {cwd v : Str}
    (hc : containsSub (str "://") v = true)
    (hs : (urlparse v []).scheme = str "file")
    (hn : ¬((urlparse v []).netloc = [] ∨ (urlparse v []).netloc = str "localhost")) :
    FileUri_validate cwd v = .err (str "Invalid netloc: " ++ v) := by
  have hv1 : (if containsSub (str "://") v = false then path_as_uri (pyResolve cwd v) else v) = v := by
    rw [hc]
    simp
  simp only [FileUri_validate]
  rw [hv1, if_neg (fun hne => hne hs), if_pos hn]

theorem FileUri_validate_bare {cwd v : Str}
    (hcwd1 : cwd.take 1 = str "/") (hcwd2 : AllAscii cwd) (hv : AllAscii v)
    (hnc : containsSub (str "://") v = false) :
    FileUri_validate cwd v = .ok (pyResolve cwd v) := by
  have hJabs : ((if v.take 1 = str "/" then v else cwd ++ '/' :: v) : Str).take 1 = str "/" := by
    by_cases h : v.take 1 = str "/"
    · rw [if_pos h]; exact h
    · rw [if_neg h]
      obtain ⟨t, ht⟩ := take_one_eq_cons (by
        rw [show str "/" = ['/'] from by decide] at hcwd1
        exact hcwd1)
      rw [ht]
      rfl
  have hJascii : AllAscii (if v.take 1 = str "/" then v else cwd ++ '/' :: v) := by
    by_cases h : v.take 1 = str "/"
    · rw [if_pos h]; exact hv
    · rw [if_neg h]
      intro c hc
      rcases List.mem_append.mp hc with h1 | h1
      · exact hcwd2 c h1
      · rcases List.mem_cons.mp h1 with rfl | h2
        · decide
        · exact hv c h2
  have hR : pyResolve cwd v = normpath (if v.take 1 = str "/" then v else cwd ++ '/' :: v) := rfl
  have hRabs : (pyResolve cwd v).take 1 = str "/" := by
    rw [hR]; exact normpath_take_abs hJabs
  have hRascii : AllAscii (pyResolve cwd v) := by
    rw [hR]; exact ascii_normpath hJascii
  have hRnorm : normpath (pyResolve cwd v) = pyResolve cwd v := by
    rw [hR]; exact normpath_idem_abs hJabs
  obtain ⟨rt, hrt⟩ := take_one_eq_cons (by
    rw [show str "/" = ['/'] from by decide] at hRabs
    exact hRabs)
  have hquote : quote (pyResolve cwd v) = '/' :: quote rt := by
    rw [hrt, quote_cons_slash]
  have hparse : urlparse (path_as_uri (pyResolve cwd v)) [] =
      ⟨str "file", [], '/' :: quote rt, [], [], []⟩ := by
    rw [path_as_uri, hquote]
    exact urlparse_file_slashes (fun c hc => quote_char_not_special hc)
  simp only [FileUri_validate]
  rw [if_pos hnc, hparse]
  rw [if_neg (fun hne => hne rfl), if_neg (fun hnot => hnot (Or.inl rfl))]
  simp only [uri_to_path]
  rw [hparse]
  rw [if_neg (fun hne => hne rfl)]
  rw [show ('/' :: quote rt : Str) = quote (pyResolve cwd v) from hquote.symm]
  rw [unquote_quote hRascii, hRnorm]

theorem classify_eq_gs {cwd v s : Str} (h : GSUri_validate v = .ok s) :
    classify cwd v = .ok ⟨.gs, s⟩ := by
  simp only [classify]
  rw [h]

theorem classify_eq_http {cwd v s e1 : Str} (h1 : GSUri_validate v = .err e1)
    (h : HttpUri_validate v = .ok s) :
    classify cwd v = .ok ⟨.http, s⟩ := by
  simp only [classify]
  rw [h1, h]

theorem classify_eq_file {cwd v s e1 e2 : Str} (h1 : GSUri_validate v = .err e1)
    (h2 : HttpUri_validate v = .err e2) (h : FileUri_validate cwd v = .ok s) :
    classify cwd v = .ok ⟨.file, s⟩ := by
  simp only [classify]
  rw [h1, h2, h]

theorem classify_err {cwd v e1 e2 e3 : Str} (h1 : GSUri_validate v = .err e1)
    (h2 : HttpUri_validate v = .err e2) (h3 : FileUri_validate cwd v = .err e3) :
    classify cwd v = .err (str "Invalid URI: " ++ v) := by
  simp only [classify]
  rw [h1, h2, h3]

theorem take_one_cons_slash (tail : Str) : (('/' :: tail : Str)).take 1 = str "/" := by
  rw [show str "/" = ['/'] from by decide]
  rfl

theorem urlunparse_https {netloc pathS : Str} (hn : netloc ≠ [])
    (hp : pathS.take 1 = str "/") :
    urlunparse (str "https") netloc pathS [] [] [] =
      str "https://" ++ netloc ++ pathS := by
  obtain ⟨n0, nt, rfl⟩ : ∃ n0 nt, netloc = n0 :: nt := by
    cases netloc with
    | nil => exact absurd rfl hn
    | cons n0 nt => exact ⟨n0, nt, rfl⟩
  have step : urlunparse (str "https") (n0 :: nt) pathS [] [] [] =
      str "https" ++ ':' :: (str "//" ++ (n0 :: nt) ++
        (if pathS ≠ [] ∧ pathS.take 1 ≠ str "/" then '/' :: pathS else pathS)) := rfl
  rw [step, if_neg (fun hand => hand.2 hp)]
  rfl

theorem urlunparse_https_prepend {b0 : Char} {bt tail : Str} (hb0 : b0 ≠ '/') :
    urlunparse (str "https") (str "storage.googleapis.com") ((b0 :: bt) ++ '/' :: tail)
      [] [] [] =
      str "https://storage.googleapis.com/" ++ ((b0 :: bt) ++ '/' :: tail) := by
  have step : urlunparse (str "https") (str "storage.googleapis.com")
      ((b0 :: bt) ++ '/' :: tail) [] [] [] =
      str "https" ++ ':' :: (str "//" ++ str "storage.googleapis.com" ++
        (if ((b0 :: bt) ++ '/' :: tail : Str) ≠ [] ∧
            (((b0 :: bt) ++ '/' :: tail : Str)).take 1 ≠ str "/"
         then '/' :: ((b0 :: bt) ++ '/' :: tail) else (b0 :: bt) ++ '/' :: tail)) := rfl
  rw [step, if_pos ⟨by simp, by
    rw [show (((b0 :: bt) ++ '/' :: tail : Str)).take 1 = [b0] from rfl,
      show str "/" = ['/'] from by decide]
    simp [hb0]⟩]
  rfl

theorem pyResolve_props {cwd v : Str} (hcwd1 : cwd.take 1 = str "/") :
    (pyResolve cwd v).take 1 = str "/" ∧ normpath (pyResolve cwd v) = pyResolve cwd v := by
  have hJabs : ((if v.take 1 = str "/" then v else cwd ++ '/' :: v) : Str).take 1 = str "/" := by
    by_cases h : v.take 1 = str "/"
    · rw [if_pos h]; exact h
    · rw [if_neg h]
      obtain ⟨t, ht⟩ := take_one_eq_cons (by
        rw [show str "/" = ['/'] from by decide] at hcwd1
        exact hcwd1)
      rw [ht]
      rfl
  have hR : pyResolve cwd v = normpath (if v.take 1 = str "/" then v else cwd ++ '/' :: v) := rfl
  constructor
  · rw [hR]; exact normpath_take_abs hJabs
  · rw [hR]; exact normpath_idem_abs hJabs

/-! The claims. -/

/-- C1: `classify` tries the validators in the fixed order object-store,
then HTTP, then local (first conjunct, the definitional dispatch order);
for every URL whose scheme is `http`/`https` and whose host is
`storage.googleapis.com` the result is an object-store locator, never a
generic HTTP one (second conjunct); in particular
`https://storage.googleapis.com/b/k` classifies as the object-store
locator of bucket `b`, key `k` (third conjunct). -/
theorem classify_priority_object_store (cwd v : Str)
    (hs : (urlparse v []).scheme = str "http" ∨ (urlparse v []).scheme = str "https")
    (hn : (urlparse v []).netloc = str "storage.googleapis.com") :
    (∀ w, classify cwd w =
      (match GSUri_validate w with
       | .ok s => .ok ⟨.gs, s⟩
       | .err _ =>
         match HttpUri_validate w with
         | .ok s => .ok ⟨.http, s⟩
         | .err _ =>
           match FileUri_validate cwd w with
           | .ok s => .ok ⟨.file, s⟩
           | .err _ => .err (str "Invalid URI: " ++ w))) ∧
    (∃ s, classify cwd v = .ok ⟨.gs, s⟩) ∧
    classify cwd (str "https://storage.googleapis.com/b/k") =
      .ok ⟨.gs, str "https://storage.googleapis.com/b/k"⟩ := by
  refine ⟨fun w => rfl, ⟨_, classify_eq_gs (GSUri_validate_ok_https hs hn)⟩,
    classify_eq_gs (show GSUri_validate (str "https://storage.googleapis.com/b/k") =
      .ok (str "https://storage.googleapis.com/b/k") from by decide)⟩

theorem classify_priority_object_store_witness :
    (((urlparse (str "https://storage.googleapis.com/b/k") []).scheme = str "http" ∨
      (urlparse (str "https://storage.googleapis.com/b/k") []).scheme = str "https") ∧
      (urlparse (str "https://storage.googleapis.com/b/k") []).netloc =
        str "storage.googleapis.com") ∧
    (∃ s, classify (str "/home") (str "https://storage.googleapis.com/b/k") =
      .ok ⟨.gs, s⟩) :=
  ⟨⟨by decide, by decide⟩,
    (classify_priority_object_store (str "/home")
      (str "https://storage.googleapis.com/b/k") (by decide) (by decide)).2.1⟩

/-- C2: contrary to the claim (and to `GSUri`'s own docstring),
`GSUri._validate` passes the parsed params/query/fragment into
`urlunparse`, so the canonical form of `classify("gs://b/k?x=1")` keeps
the query and differs from that of `classify("gs://b/k")`; their `gs://`
display forms differ as well. -/
theorem gsuri_query_not_dropped :
    classify (str "/home") (str "gs://b/k?x=1") =
      .ok ⟨.gs, str "https://storage.googleapis.com/b/k?x=1"⟩ ∧
    classify (str "/home") (str "gs://b/k") =
      .ok ⟨.gs, str "https://storage.googleapis.com/b/k"⟩ ∧
    classify (str "/home") (str "gs://b/k?x=1") ≠
      classify (str "/home") (str "gs://b/k") ∧
    as_uri ⟨.gs, str "https://storage.googleapis.com/b/k?x=1"⟩ ≠
      as_uri ⟨.gs, str "https://storage.googleapis.com/b/k"⟩ :=
  ⟨by decide, by decide, by decide, by decide⟩

/-- Body of a scope that raises. -/
def tdFailingBody : Str → TDState → BodyRes Unit × TDState :=
  fun _ s => (.exn (str "boom"), s)

/-- Body of a scope that completes normally. -/
def tdOkBody : Str → TDState → BodyRes Unit × TDState :=
  fun _ s => (.ok (), s)

/-- C5: on the normal exit path the scope's directory is removed and the
worker binding is unbound, but on the exception exit path only the
directory is removed — the `_thread_locals.tempdir = None` statement
after the `yield` is not in a `finally`, so the binding is left pointing
at the deleted directory, contradicting the claim that the binding is
unbound on every exit path. -/
theorem tempdir_exception_leaves_binding :
    threading_tempdir_run (str "/tmp/scope") tdOkBody ⟨false, none⟩ =
      (.ok (), ⟨false, none⟩) ∧
    threading_tempdir_run (str "/tmp/scope") tdFailingBody ⟨false, none⟩ =
      (.exn (str "boom"), ⟨false, some (str "/tmp/scope")⟩) ∧
    (threading_tempdir_run (str "/tmp/scope") tdFailingBody ⟨false, none⟩).2.binding ≠
      none :=
  ⟨rfl, rfl, by decide⟩

/-- C9: `filepath` leaves the file system unchanged and returns a name
that does not exist (the freshness of the OS-chosen stem is the
hypothesis — per the spec, uniqueness comes from the OS temp-name
generator, not this system); the name lives under the bound scope
directory when one is bound and under the process-global temp area
otherwise; a missing suffix becomes `.unknown` and a suffix without a
leading dot gets one prepended. -/
theorem filepath_allocation (binding : Option Str) (globalTmp stem : Str)
    (suffix : Option Str) (fs : List Str)
    (hfresh : filepathName binding globalTmp stem suffix ∉ fs) :
    filepathRun fs binding globalTmp stem suffix =
      (filepathName binding globalTmp stem suffix, fs) ∧
    filepathName binding globalTmp stem suffix ∉ fs ∧
    (∀ d, binding = some d →
      filepathName binding globalTmp stem suffix =
        d ++ '/' :: stem ++ normSuffix suffix) ∧
    (binding = none →
      filepathName binding globalTmp stem suffix =
        globalTmp ++ '/' :: stem ++ normSuffix suffix) ∧
    normSuffix none = str ".unknown" ∧
    (∀ s, s.take 1 ≠ str "." → normSuffix (some s) = '.' :: s) ∧
    (∀ s, s.take 1 = str "." → normSuffix (some s) = s) := by
  refine ⟨?_, hfresh, ?_, ?_, rfl, ?_, ?_⟩
  · show (filepathName binding globalTmp stem suffix,
      (filepathName binding globalTmp stem suffix :: fs).erase
        (filepathName binding globalTmp stem suffix)) = _
    rw [List.erase_cons_head]
  · rintro d rfl
    rfl
  · rintro rfl
    rfl
  · intro s hs
    show (if List.take 1 s = str "." then s else '.' :: s) = _
    rw [if_neg hs]
  · intro s hs
    show (if List.take 1 s = str "." then s else '.' :: s) = _
    rw [if_pos hs]

theorem filepath_allocation_witness :
    filepathName (some (str "/tmp/scope")) (str "/tmp") (str "tmpabc") (some (str "png")) ∉
      ([] : List Str) ∧
    filepathRun [] (some (str "/tmp/scope")) (str "/tmp") (str "tmpabc")
        (some (str "png")) =
      (filepathName (some (str "/tmp/scope")) (str "/tmp") (str "tmpabc")
        (some (str "png")), []) :=
  ⟨by decide,
    (filepath_allocation (some (str "/tmp/scope")) (str "/tmp") (str "tmpabc")
      (some (str "png")) [] (by decide)).1⟩

/-- C10: for every accepted `file://` input (scheme `file`, host empty or
`localhost`), the stored canonical form is computed from the parsed path
component alone — `normpath(unquote(path))` — so query, fragment and
params are discarded; concretely `classify("file:///a/b?x=1#f")` equals
`classify("file:///a/b")`. -/
theorem fileuri_ignores_query_fragment (cwd v : Str)
    (hc : containsSub (str "://") v = true)
    (hs : (urlparse v []).scheme = str "file")
    (hn : (urlparse v []).netloc = [] ∨ (urlparse v []).netloc = str "localhost") :
    classify cwd v = .ok ⟨.file, normpath (unquote (urlparse v []).pathStr)⟩ ∧
    classify (str "/home") (str "file:///a/b?x=1#f") =
      classify (str "/home") (str "file:///a/b") := by
  constructor
  · have hgs := @GSUri_validate_err_of_scheme v (by rw [hs]; decide)
      (by rw [hs]; decide) (by rw [hs]; decide)
    have hht := @HttpUri_validate_err v (by rw [hs]; decide) (by rw [hs]; decide)
    exact classify_eq_file hgs hht (FileUri_validate_with_sep_ok hc hs hn)
  · decide

theorem fileuri_ignores_query_fragment_witness :
    (containsSub (str "://") (str "file:///a/b?x=1#f") = true ∧
      (urlparse (str "file:///a/b?x=1#f") []).scheme = str "file") ∧
    classify (str "/home") (str "file:///a/b?x=1#f") =
      .ok ⟨.file, normpath (unquote (urlparse (str "file:///a/b?x=1#f") []).pathStr)⟩ :=
  ⟨⟨by decide, by decide⟩,
    (fileuri_ignores_query_fragment (str "/home") (str "file:///a/b?x=1#f")
      (by decide) (by decide) (by decide)).1⟩

/-- C4: in `local`, once the URI has been classified, a failing adapter
call is never swallowed: an HTTP fetch failure is re-raised as
`DownloadError`, an object-store fetch failure as `DownloadError`, and a
local copy failure as `FileCopyError`, each carrying the message with
the offending locator and the original cause. -/
theorem local_error_translation (cwd : Str) (binding : Option Str)
    (globalTmp stem : Str) (httpFetch copyFile gsFetch : Str → Str → Res Str)
    (uri : Str) (x : Locator) (hcl : classify cwd uri = .ok x) :
    (∀ e, x.variant = .http →
      httpFetch x.value
        (filepathName binding globalTmp stem (extract_ext_from_uri x)) = .err e →
      localFn cwd binding globalTmp stem httpFetch copyFile gsFetch uri =
        .inr (.download (str "failed to download " ++ x.value) e)) ∧
    (∀ e, x.variant = .gs →
      gsFetch x.value
        (filepathName binding globalTmp stem (extract_ext_from_uri x)) = .err e →
      localFn cwd binding globalTmp stem httpFetch copyFile gsFetch uri =
        .inr (.download (str "failed to download " ++ x.value) e)) ∧
    (∀ e, x.variant = .file →
      copyFile x.value
        (filepathName binding globalTmp stem (extract_ext_from_uri x)) = .err e →
      localFn cwd binding globalTmp stem httpFetch copyFile gsFetch uri =
        .inr (.fileCopy (str "failed to copy " ++ x.value) e)) := by
  obtain ⟨var, val⟩ := x
  refine ⟨?_, ?_, ?_⟩ <;>
    (intro e hvar had
     cases hvar
     simp only [localFn]
     rw [hcl]
     dsimp only
     rw [had])

theorem local_error_translation_witness :
    classify (str "/home") (str "https://example.com/a.png") =
      .ok ⟨.http, str "https://example.com/a.png"⟩ ∧
    localFn (str "/home") none (str "/tmp") (str "stem")
      (fun _ _ => .err (str "net down")) (fun _ _ => .ok (str "x"))
      (fun _ _ => .ok (str "x")) (str "https://example.com/a.png") =
      .inr (.download (str "failed to download " ++ str "https://example.com/a.png")
        (str "net down")) :=
  ⟨by decide,
    (local_error_translation (str "/home") none (str "/tmp") (str "stem")
      (fun _ _ => .err (str "net down")) (fun _ _ => .ok (str "x"))
      (fun _ _ => .ok (str "x")) (str "https://example.com/a.png")
      ⟨.http, str "https://example.com/a.png"⟩ (by decide)).1
      (str "net down") rfl rfl⟩

/-- The extension of the last path segment of a locator's `as_uri` form,
as `extract_ext_from_uri` derives it (`os.path.splitext` of the segment
after the last `/` of the parsed path). -/
def extOfLast (x : Locator) : Str :=
  (splitext (lastPart (splitSlash (urlparse (as_uri x) []).pathStr))).2

/-- The language of `^\.[A-Za-z0-9]{1,10}$`: a dot followed by one to
ten ASCII alphanumerics. -/
def ExtRegex (e : Str) : Prop :=
  ∃ cs, e = '.' :: cs ∧ 1 ≤ cs.length ∧ cs.length ≤ 10 ∧ ∀ c ∈ cs, isAsciiAlnum c = true

/-- C7: `is_legal_file_ext` decides exactly the regex
`^\.[A-Za-z0-9]{1,10}$`; extension inference returns the extension of
the path's last segment exactly when that extension matches the regex
and returns `none` otherwise; in particular `.PNG` is returned for
`https://x/y/z.PNG` and nothing for `https://x/y/z`. -/
theorem extension_inference (x : Locator) (e : Str) :
    (∀ e2 : Str, is_legal_file_ext e2 = true ↔ ExtRegex e2) ∧
    (extract_ext_from_uri x = some e ↔ e = extOfLast x ∧ ExtRegex e) ∧
    (extract_ext_from_uri x = none ↔ ¬ ExtRegex (extOfLast x)) ∧
    extract_ext_from_uri ⟨.http, str "https://x/y/z.PNG"⟩ = some (str ".PNG") ∧
    extract_ext_from_uri ⟨.http, str "https://x/y/z"⟩ = none := by
  have iff1 : ∀ e2 : Str, is_legal_file_ext e2 = true ↔ ExtRegex e2 := by
    intro e2
    constructor
    · intro h
      cases e2 with
      | nil => exact absurd h (by decide)
      | cons c cs =>
        by_cases hc : c = '.'
        · subst hc
          have h2 : (decide (1 ≤ cs.length) && decide (cs.length ≤ 10) &&
              cs.all isAsciiAlnum) = true := h
          simp only [Bool.and_eq_true, decide_eq_true_eq, List.all_eq_true] at h2
          exact ⟨cs, rfl, h2.1.1, h2.1.2, h2.2⟩
        · have hfalse : is_legal_file_ext (c :: cs) = false := by
            rw [is_legal_file_ext.eq_def]
            split
            · rename_i heq
              injection heq with hh _
              exact absurd hh hc
            · rfl
          rw [hfalse] at h
          exact absurd h (by decide)
    · rintro ⟨cs, rfl, h1, h2, h3⟩
      show (decide (1 ≤ cs.length) && decide (cs.length ≤ 10) && cs.all isAsciiAlnum) = true
      simp only [Bool.and_eq_true, decide_eq_true_eq, List.all_eq_true]
      exact ⟨⟨h1, h2⟩, h3⟩
  have hunf : extract_ext_from_uri x =
      (if is_legal_file_ext (extOfLast x) then some (extOfLast x) else none) := rfl
  refine ⟨iff1, ?_, ?_, by decide, by decide⟩
  · rw [hunf]
    by_cases hl : is_legal_file_ext (extOfLast x) = true
    · rw [if_pos hl]
      constructor
      · intro h
        injection h with h
        exact ⟨h.symm, h ▸ (iff1 _).mp hl⟩
      · rintro ⟨rfl, _⟩
        rfl
    · rw [if_neg hl]
      constructor
      · intro h
        exact absurd h (by simp)
      · rintro ⟨rfl, hreg⟩
        exact absurd ((iff1 _).mpr hreg) hl
  · rw [hunf]
    by_cases hl : is_legal_file_ext (extOfLast x) = true
    · rw [if_pos hl]
      constructor
      · intro h
        exact absurd h (by simp)
      · intro h
        exact absurd ((iff1 _).mp hl) h
    · rw [if_neg hl]
      constructor
      · intro _
        intro hreg
        exact absurd ((iff1 _).mpr hreg) hl
      · intro _
        rfl

theorem extension_inference_witness :
    extract_ext_from_uri ⟨.http, str "https://x/y/z.PNG"⟩ = some (str ".PNG") :=
  (extension_inference ⟨.http, str "https://x/y/z.PNG"⟩ (str ".PNG")).2.2.2.1

/-- C6: a bare filesystem path (an ASCII string without `://` and with no
URL scheme among `gs`/`http`/`https`) classifies as a local locator whose
canonical form is the absolute, OS-normalized resolution of the path
against the working directory; `classify("/a/b/../c")` equals
`classify("/a/c")`; and a `file://` URI whose host is neither empty nor
`localhost` is rejected. -/
theorem bare_path_classification (cwd : Str)
    (hcwd1 : cwd.take 1 = str "/") (hcwd2 : AllAscii cwd) :
    (∀ v, AllAscii v → containsSub (str "://") v = false →
      (urlparse v []).scheme ≠ str "gs" → (urlparse v []).scheme ≠ str "http" →
      (urlparse v []).scheme ≠ str "https" →
      classify cwd v = .ok ⟨.file, pyResolve cwd v⟩ ∧
      (pyResolve cwd v).take 1 = str "/" ∧
      normpath (pyResolve cwd v) = pyResolve cwd v) ∧
    classify cwd (str "/a/b/../c") = classify cwd (str "/a/c") ∧
    (∀ v, containsSub (str "://") v = true → (urlparse v []).scheme = str "file" →
      '[' ∉ (urlparse v []).netloc → ']' ∉ (urlparse v []).netloc →
      ¬((urlparse v []).netloc = [] ∨ (urlparse v []).netloc = str "localhost") →
      classify cwd v = .err (str "Invalid URI: " ++ v)) := by
  have part1 : ∀ v, AllAscii v → containsSub (str "://") v = false →
      (urlparse v []).scheme ≠ str "gs" → (urlparse v []).scheme ≠ str "http" →
      (urlparse v []).scheme ≠ str "https" →
      classify cwd v = .ok ⟨.file, pyResolve cwd v⟩ ∧
      (pyResolve cwd v).take 1 = str "/" ∧
      normpath (pyResolve cwd v) = pyResolve cwd v := by
    intro v hva hnc h1 h2 h3
    have hgs := GSUri_validate_err_of_scheme h2 h3 h1
    have hht := HttpUri_validate_err h2 h3
    have hfile := FileUri_validate_bare hcwd1 hcwd2 hva hnc
    exact ⟨classify_eq_file hgs hht hfile, (pyResolve_props hcwd1).1,
      (pyResolve_props hcwd1).2⟩
  refine ⟨part1, ?_, ?_⟩
  · have hA := (part1 (str "/a/b/../c") (by decide) (by decide) (by decide)
      (by decide) (by decide)).1
    have hB := (part1 (str "/a/c") (by decide) (by decide) (by decide)
      (by decide) (by decide)).1
    rw [hA, hB]
    have e1 : pyResolve cwd (str "/a/b/../c") = str "/a/c" := by
      unfold pyResolve
      rw [if_pos (by decide : (str "/a/b/../c" : Str).take 1 = str "/")]
      decide
    have e2 : pyResolve cwd (str "/a/c") = str "/a/c" := by
      unfold pyResolve
      rw [if_pos (by decide : (str "/a/c" : Str).take 1 = str "/")]
      decide
    rw [e1, e2]
  · intro v hc hs _ _ hn
    have hgs := @GSUri_validate_err_of_scheme v (by rw [hs]; decide)
      (by rw [hs]; decide) (by rw [hs]; decide)
    have hht := @HttpUri_validate_err v (by rw [hs]; decide) (by rw [hs]; decide)
    exact classify_err hgs hht (FileUri_validate_err_netloc hc hs hn)

theorem bare_path_classification_witness :
    ((str "/home" : Str).take 1 = str "/" ∧ AllAscii (str "/home")) ∧
    classify (str "/home") (str "/a/b/../c") = classify (str "/home") (str "/a/c") :=
  ⟨⟨by decide, by decide⟩,
    (bare_path_classification (str "/home") (by decide) (by decide)).2.1⟩

/-- Side conditions under which a locator's display form re-parses to the
locator itself.  The claimed unconditional round trip fails (see the
counterexample), so this captures the well-behaved locators: HTTP
locators whose URL is normalization-stable and not on the object-store
host; object-store locators of shape
`https://storage.googleapis.com/<bucket>/<key>` with a nonempty bucket,
no `?`/`#`/control characters and no second occurrence of the storage
prefix; local locators whose path is absolute, normalized and free of
`%`, `?`, `#` and control characters. -/
def GoodDisplay : Locator → Prop
  | ⟨.gs, v⟩ => ∃ bucket tail,
      v = str "https://storage.googleapis.com/" ++ (bucket ++ '/' :: tail) ∧
      bucket ≠ [] ∧
      (∀ c ∈ bucket, c ≠ '/' ∧ c ≠ '?' ∧ c ≠ '#' ∧ c ≠ '\t' ∧ c ≠ '\r' ∧ c ≠ '\n') ∧
      (∀ c ∈ bucket, c ≠ '[' ∧ c ≠ ']') ∧
      (∀ c ∈ tail, c ≠ '#' ∧ c ≠ '?' ∧ c ≠ '\t' ∧ c ≠ '\r' ∧ c ≠ '\n') ∧
      containsSub (str "https://storage.googleapis.com/") (bucket ++ '/' :: tail) = false
  | ⟨.http, v⟩ =>
      ((urlparse v []).scheme = str "http" ∨ (urlparse v []).scheme = str "https") ∧
      (urlparse v []).netloc ≠ str "storage.googleapis.com" ∧
      normalize_url v = v ∧
      '[' ∉ (urlparse v []).netloc ∧ ']' ∉ (urlparse v []).netloc
  | ⟨.file, v⟩ => v.take 1 = str "/" ∧ normpath v = v ∧
      (∀ c ∈ v, c ≠ '%' ∧ c ≠ '?' ∧ c ≠ '#' ∧ c ≠ '\t' ∧ c ≠ '\r' ∧ c ≠ '\n')

/-- C3 (amended): `classify(x.as_uri()) = x` holds for every well-behaved
locator (`GoodDisplay`), covering all three variants; it does not hold
unconditionally (see `classify_display_roundtrip_cex`). -/
theorem classify_display_roundtrip (cwd : Str) (x : Locator) (h : GoodDisplay x) :
    classify cwd (as_uri x) = .ok x := by
  obtain ⟨var, v⟩ := x
  cases var with
  | gs =>
    obtain ⟨bucket, tail, hveq, hbne, hb, _, ht, hnosub⟩ := h
    obtain ⟨b0, bt, rfl⟩ : ∃ b0 bt, bucket = b0 :: bt := by
      cases bucket with
      | nil => exact absurd rfl hbne
      | cons b0 bt => exact ⟨b0, bt, rfl⟩
    have hdisp : as_uri ⟨.gs, v⟩ = str "gs://" ++ ((b0 :: bt) ++ '/' :: tail) := by
      show replaceAll (str "https://storage.googleapis.com/") (str "gs://") v = _
      rw [hveq]
      rw [replaceAll_single (by decide) hnosub]
    have hparse := urlparse_gs_display hb ht
    have hgs : GSUri_validate (str "gs://" ++ ((b0 :: bt) ++ '/' :: tail)) = .ok v := by
      rw [GSUri_validate_ok_gs
        (by rw [hparse]; exact (by decide : (str "gs" : Str) ≠ str "http"))
        (by rw [hparse]; exact (by decide : (str "gs" : Str) ≠ str "https"))
        (by rw [hparse])]
      rw [hparse]
      show Res.ok (urlunparse (str "https") (str "storage.googleapis.com")
        ((b0 :: bt) ++ '/' :: tail) [] [] []) = _
      rw [urlunparse_https_prepend (hb b0 (List.mem_cons_self b0 bt)).1, ← hveq]
    rw [hdisp]
    exact classify_eq_gs hgs
  | http =>
    obtain ⟨hs, hn, hnorm, _, _⟩ := h
    have hgs := GSUri_validate_err_of_netloc hs hn
    have hok := HttpUri_validate_ok hs
    rw [hnorm] at hok
    show classify cwd v = .ok ⟨.http, v⟩
    exact classify_eq_http hgs hok
  | file =>
    obtain ⟨habs, hnorm, hch⟩ := h
    obtain ⟨w, rfl⟩ := take_one_eq_cons (by
      rw [show str "/" = ['/'] from by decide] at habs
      exact habs)
    have hw : ∀ c ∈ w, c ≠ '#' ∧ c ≠ '?' ∧ c ≠ '\t' ∧ c ≠ '\r' ∧ c ≠ '\n' := by
      intro c hc
      have h2 := hch c (List.mem_cons_of_mem '/' hc)
      exact ⟨h2.2.2.1, h2.2.1, h2.2.2.2.1, h2.2.2.2.2.1, h2.2.2.2.2.2⟩
    have hdisp : as_uri ⟨.file, '/' :: w⟩ = str "file://localhost/" ++ w := rfl
    have hparse := urlparse_file_localhost hw
    have hcontains : containsSub (str "://") (str "file://localhost/" ++ w) = true := by
      rw [show (str "file://localhost/" ++ w : Str) =
        str "file" ++ str "://" ++ (str "localhost/" ++ w) from rfl]
      exact containsSub_of_append (str "://") (str "file") (str "localhost/" ++ w)
    have hfile := @FileUri_validate_with_sep_ok cwd (str "file://localhost/" ++ w) hcontains
      (by rw [hparse]) (by rw [hparse]; right; rfl)
    rw [hparse] at hfile
    have hnp : '%' ∉ ('/' :: w : Str) := by
      intro hm
      rcases List.mem_cons.mp hm with hm | hm
      · exact absurd hm (by decide)
      · exact (hch '%' (List.mem_cons_of_mem '/' hm)).1 rfl
    rw [show ((⟨str "file", str "localhost", '/' :: w, [], [], []⟩ : ParseResult)).pathStr =
      '/' :: w from rfl] at hfile
    rw [unquote_no_percent hnp, hnorm] at hfile
    rw [hdisp]
    have hgs := @GSUri_validate_err_of_scheme (str "file://localhost/" ++ w)
      (by rw [hparse]; exact (by decide : (str "file" : Str) ≠ str "http"))
      (by rw [hparse]; exact (by decide : (str "file" : Str) ≠ str "https"))
      (by rw [hparse]; exact (by decide : (str "file" : Str) ≠ str "gs"))
    have hht := @HttpUri_validate_err (str "file://localhost/" ++ w)
      (by rw [hparse]; exact (by decide : (str "file" : Str) ≠ str "http"))
      (by rw [hparse]; exact (by decide : (str "file" : Str) ≠ str "https"))
    exact classify_eq_file hgs hht hfile

theorem classify_display_roundtrip_witness :
    GoodDisplay ⟨.file, str "/a/c"⟩ ∧
    classify (str "/home") (as_uri ⟨.file, str "/a/c"⟩) = .ok ⟨.file, str "/a/c"⟩ :=
  ⟨⟨by decide, by decide, by decide⟩,
    classify_display_roundtrip (str "/home") ⟨.file, str "/a/c"⟩
      ⟨by decide, by decide, by decide⟩⟩

/-- C3 counterexample: the local locator produced from `file:///a%3Fb`
stores the path `/a?b`; its display form `file://localhost/a?b` re-parses
with `?b` as a query string, so re-classifying it yields the different
locator `/a` — `classify(x.asDisplayForm()) == x` fails. -/
theorem classify_display_roundtrip_cex :
    classify (str "/home") (str "file:///a%3Fb") = .ok ⟨.file, str "/a?b"⟩ ∧
    as_uri ⟨.file, str "/a?b"⟩ = str "file://localhost/a?b" ∧
    classify (str "/home") (as_uri ⟨.file, str "/a?b"⟩) = .ok ⟨.file, str "/a"⟩ ∧
    classify (str "/home") (as_uri ⟨.file, str "/a?b"⟩) ≠
      .ok (⟨.file, str "/a?b"⟩ : Locator) :=
  ⟨by decide, by decide, by decide, by decide⟩

/-- Side conditions under which a locator's source form re-classifies to
the locator itself.  The claimed unconditional property fails (see the
counterexample), so this captures the well-behaved locators: HTTP
locators whose URL is normalization-stable and not on the object-store
host; object-store locators of shape
`https://storage.googleapis.com/<bucket>/<key>` with a nonempty bucket
and no `?`/`#`/`;`/control characters; local locators whose path is an
absolute, normalized ASCII path without `://` or control characters. -/
def GoodSource : Locator → Prop
  | ⟨.gs, v⟩ => ∃ bucket tail,
      v = str "https://storage.googleapis.com/" ++ (bucket ++ '/' :: tail) ∧
      bucket ≠ [] ∧
      (∀ c ∈ bucket,
        c ≠ '/' ∧ c ≠ '?' ∧ c ≠ '#' ∧ c ≠ ';' ∧ c ≠ '\t' ∧ c ≠ '\r' ∧ c ≠ '\n') ∧
      (∀ c ∈ bucket, c ≠ '[' ∧ c ≠ ']') ∧
      (∀ c ∈ tail, c ≠ '#' ∧ c ≠ '?' ∧ c ≠ ';' ∧ c ≠ '\t' ∧ c ≠ '\r' ∧ c ≠ '\n')
  | ⟨.http, v⟩ =>
      ((urlparse v []).scheme = str "http" ∨ (urlparse v []).scheme = str "https") ∧
      (urlparse v []).netloc ≠ str "storage.googleapis.com" ∧
      normalize_url v = v ∧
      '[' ∉ (urlparse v []).netloc ∧ ']' ∉ (urlparse v []).netloc
  | ⟨.file, v⟩ => v.take 1 = str "/" ∧ AllAscii v ∧ normpath v = v ∧
      containsSub (str "://") v = false ∧ (∀ c ∈ v, c ≠ '\t' ∧ c ≠ '\r' ∧ c ≠ '\n')

/-- C8 (amended): `classify(x.as_source()) = x` holds for every
well-behaved locator (`GoodSource`), covering all three variants — for
local its source form is the bare path, for HTTP the full URL, for
object-store the `https://storage.googleapis.com/...` URL; it does not
hold unconditionally (see `classify_source_roundtrip_cex`). -/
theorem classify_source_roundtrip (cwd : Str)
    (hcwd1 : cwd.take 1 = str "/") (hcwd2 : AllAscii cwd)
    (x : Locator) (h : GoodSource x) : classify cwd (as_source x) = .ok x := by
  obtain ⟨var, v⟩ := x
  cases var with
  | gs =>
    obtain ⟨bucket, tail, hveq, hbne, hb, _, ht⟩ := h
    have hparse := urlparse_gs_canon hb ht
    show classify cwd v = .ok ⟨.gs, v⟩
    have hgs : GSUri_validate v = .ok v := by
      rw [hveq]
      rw [GSUri_validate_ok_https (by rw [hparse]; exact Or.inr rfl) (by rw [hparse])]
      rw [hparse]
      show Res.ok (urlunparse (str "https") (str "storage.googleapis.com")
        ('/' :: (bucket ++ '/' :: tail)) [] [] []) = _
      rw [urlunparse_https (by decide) (take_one_cons_slash _)]
      rfl
    exact classify_eq_gs hgs
  | http =>
    obtain ⟨hs, hn, hnorm, _, _⟩ := h
    have hgs := GSUri_validate_err_of_netloc hs hn
    have hok := HttpUri_validate_ok hs
    rw [hnorm] at hok
    show classify cwd v = .ok ⟨.http, v⟩
    exact classify_eq_http hgs hok
  | file =>
    obtain ⟨habs, hascii, hnorm, hnc, hctl⟩ := h
    show classify cwd v = .ok ⟨.file, v⟩
    have hsch : (urlparse v []).scheme = [] := by
      rw [urlparse_scheme]
      exact urlsplit_scheme_head_slash habs (fun c hc =>
        notUnsafe_of (hctl c hc).1 (hctl c hc).2.1 (hctl c hc).2.2)
    have hgs := @GSUri_validate_err_of_scheme v
      (by rw [hsch]; exact (by decide : ([] : Str) ≠ str "http"))
      (by rw [hsch]; exact (by decide : ([] : Str) ≠ str "https"))
      (by rw [hsch]; exact (by decide : ([] : Str) ≠ str "gs"))
    have hht := @HttpUri_validate_err v
      (by rw [hsch]; exact (by decide : ([] : Str) ≠ str "http"))
      (by rw [hsch]; exact (by decide : ([] : Str) ≠ str "https"))
    have hfile := FileUri_validate_bare hcwd1 hcwd2 hascii hnc
    have hpr : pyResolve cwd v = v := by
      unfold pyResolve
      rw [if_pos habs, hnorm]
    rw [hpr] at hfile
    exact classify_eq_file hgs hht hfile

theorem classify_source_roundtrip_witness :
    GoodSource ⟨.gs, str "https://storage.googleapis.com/b/k"⟩ ∧
    classify (str "/home") (as_source ⟨.gs, str "https://storage.googleapis.com/b/k"⟩) =
      .ok ⟨.gs, str "https://storage.googleapis.com/b/k"⟩ :=
  ⟨⟨str "b", str "k", by decide, by decide, by decide, by decide, by decide⟩,
    classify_source_roundtrip (str "/home") (by decide) (by decide)
      ⟨.gs, str "https://storage.googleapis.com/b/k"⟩
      ⟨str "b", str "k", by decide, by decide, by decide, by decide, by decide⟩⟩

/-- C8 counterexample: `classify("file://")` yields the degenerate local
locator whose stored value is `.` (empty path normalizes to `.`); its
source form `.` re-classifies, via `Path(".").resolve()`, to the current
working directory — a different locator — so
`classify(x.asSourceForm()) == x` fails. -/
theorem classify_source_roundtrip_cex :
    classify (str "/home") (str "file://") = .ok ⟨.file, str "."⟩ ∧
    as_source ⟨.file, str "."⟩ = str "." ∧
    classify (str "/home") (as_source ⟨.file, str "."⟩) = .ok ⟨.file, str "/home"⟩ ∧
    classify (str "/home") (as_source ⟨.file, str "."⟩) ≠
      .ok (⟨.file, str "."⟩ : Locator) :=
  ⟨by decide, by decide, by decide, by decide⟩

-- further cross-checks of the embedded CPython helpers
example : replaceAll (str "aa") (str "b") (str "aaa") = str "ba" := by decide
example : replaceAll (str "https://storage.googleapis.com/") (str "gs://")
    (str "https://storage.googleapis.com/b/k") = str "gs://b/k" := by decide
example : unquote (str "%41%20") = str "A " := by decide
example : unquote (str "%4") = str "%4" := by decide
example : unquote (str "%%41") = str "%A" := by decide
example : splitext (str ".bashrc") = (str ".bashrc", str "") := by decide
example : splitext (str "a..b") = (str "a.", str ".b") := by decide
example : normpath (str "/a//b/./c/../d/") = str "/a/b/d" := by decide
example : normpath (str "//a") = str "//a" := by decide
example : urlparse (str "gs://b/k;p") [] = ⟨str "gs", str "b", str "/k;p", [], [], []⟩ := by
  decide
example : urlparse (str "http://h/a;x") [] =
    ⟨str "http", str "h", str "/a", str "x", [], []⟩ := by decide
example : quote (str "/a b?c") = str "/a%20b%3Fc" := by decide
